import Mathlib

/-!
# Verification of the classifieds-marketplace core

A shallow embedding, in Lean 4, of the core logic of the repository
`CS3331-Software-Engineering-Project1` (a small Gradio/SQLite marketplace):

* `utils/database.py` — the users table and its operations
  (`register_user`, `authenticate_user`, `approve_user`), and `load_items`;
* `utils/category_config.py` — the category/schema store
  (`get_categories`, `get_category_fields`, `upsert_category`,
  `delete_category`, `save_config`, `_validate_config`, `_normalize_field`);
* `main.py` — the item catalog (`add_item`, `delete_item`,
  `admin_category_delete`) and the search engine (`search_items`), plus the
  attribute codec (`_parse_attributes` and the `json.dumps` call in
  `add_item`).

SQLite tables are modelled as Lean lists of records in rowid order; Python
dicts as association lists in insertion order; Python's `json` module by an
executable serializer/parser pair over a `Json` AST.  Effects that the claims
do not touch (file copies for images, timestamps, the Gradio UI echo values,
HTML rendering) are modelled as opaque string parameters or dropped, as the
spec itself declares them out of scope.

Known, deliberate abstractions (each noted again at its definition):
* Python `str.strip()` strips Unicode whitespace; `pyStrip` covers the same
  set of code points Python treats as whitespace.
* Python `str.lower()` is full Unicode; `pyLower` maps ASCII letters only
  (all category names and messages in this repository are Chinese or ASCII,
  where the two agree).
* `json.loads` accepts lone-surrogate `\uXXXX` escapes (Python strings may
  hold surrogates); Lean `Char` cannot represent them, so the modelled
  parser rejects them.  `json.dumps(..., ensure_ascii=False)` never emits
  them, so no claim is affected.
-/

/-! ## Python string helpers -/

/-- The set of characters Python's `str.strip()` removes: the code points for
which Python's `str.isspace()` holds (Unicode whitespace plus the file/group/
record/unit separators 0x1c–0x1f). -/
def isPyWs (c : Char) : Bool :=
  (9 ≤ c.toNat && c.toNat ≤ 13) || (28 ≤ c.toNat && c.toNat ≤ 32) ||
  c.toNat == 0x85 || c.toNat == 0xa0 || c.toNat == 0x1680 ||
  (0x2000 ≤ c.toNat && c.toNat ≤ 0x200a) ||
  c.toNat == 0x2028 || c.toNat == 0x2029 || c.toNat == 0x202f ||
  c.toNat == 0x205f || c.toNat == 0x3000

/-- Python `str.strip()` on a character list. -/
def pyStripL (l : List Char) : List Char :=
  ((l.dropWhile isPyWs).reverse.dropWhile isPyWs).reverse

/-- Python `str.strip()`. -/
def pyStrip (s : String) : String := String.mk (pyStripL s.data)

/-- Python `str.lower()`, restricted to the ASCII range (see header note). -/
def pyLower (s : String) : String := String.mk (s.data.map Char.toLower)

/-- Does `hay` start with `needle`? -/
def leadsWith : List Char → List Char → Bool
  | a :: as, b :: bs => a = b && leadsWith as bs
  | [], _ => true
  | _, [] => false

/-- Python `needle in hay`: contiguous substring containment. -/
def strContains (needle : List Char) : List Char → Bool
  | [] => needle.isEmpty
  | b :: bs => leadsWith needle (b :: bs) || strContains needle bs

/-- Python `needle in hay` on lowercased strings, as used by `search_items`:
case-insensitive substring containment. -/
def lcContains (hay needle : String) : Bool :=
  strContains (pyLower needle).data (pyLower hay).data

/-- Python `"、".join(parts)` (also used with other separators). -/
def pyJoin (sep : String) : List String → String
  | [] => ""
  | [x] => x
  | x :: xs => x ++ sep ++ pyJoin sep xs

/-! ## Python dicts as association lists (insertion order preserved) -/

/-- Python `d[k] = v`: overwrite in place if the key exists (keeping its
position), otherwise append. -/
def pyDictSet (d : List (String × α)) (k : String) (v : α) : List (String × α) :=
  if d.any (fun p => p.1 = k) then
    d.map (fun p => if p.1 = k then (k, v) else p)
  else d ++ [(k, v)]

/-- Build a Python dict from a pair sequence (later duplicates overwrite). -/
def pyDictOfPairs (l : List (String × α)) : List (String × α) :=
  l.foldl (fun d p => pyDictSet d p.1 p.2) []

/-- Python `d.get(k, default)` / `k in d` use the unique binding; on the
association lists produced by `pyDictSet` keys are unique, so the first
match is the binding. -/
def pyDictGet (d : List (String × α)) (k : String) : Option α :=
  (d.find? (fun p => p.1 = k)).map (fun p => p.2)

/-- Python `d.pop(k, None)`: drop the binding for `k` if present. -/
def pyDictPop (d : List (String × α)) (k : String) : List (String × α) :=
  d.filter (fun p => p.1 ≠ k)

/-- Python `d.setdefault(k, v)`: insert at the end only when absent. -/
def pyDictSetdefault (d : List (String × α)) (k : String) (v : α) :
    List (String × α) :=
  if d.any (fun p => p.1 = k) then d else d ++ [(k, v)]

/-! ## The `json` module

`main.py` persists an item's dynamic attributes with
`json.dumps(attributes, ensure_ascii=False)` and reads them back through
`_parse_attributes`, which wraps `json.loads`.  We model JSON values by an
AST (number tokens are kept verbatim: no claim depends on numeric value),
the serializer for string-to-string dicts (the only shape `add_item` ever
serializes), and a total recursive-descent parser. -/

inductive Json where
  | null
  | bool (b : Bool)
  | num (tok : List Char)
  | str (s : List Char)
  | arr (elems : List Json)
  | obj (members : List (List Char × Json))

/-- Lowercase hex digit, as produced by Python's `\u%04x` escape format. -/
def hexDigitChar (n : Nat) : Char :=
  if n < 10 then Char.ofNat ('0'.toNat + n)
  else if n < 16 then Char.ofNat ('a'.toNat + (n - 10))
  else '0'

/-- `json.dumps` escaping of one character with `ensure_ascii=False`
(python's `ESCAPE` regex and `ESCAPE_DCT`): backslash, quote, the five
C escapes, `\u00XX` for the other control characters, everything else
verbatim. -/
def pyEscapeChar (c : Char) : List Char :=
  if c = '\\' then ['\\', '\\']
  else if c = '"' then ['\\', '"']
  else if c = '\x08' then ['\\', 'b']
  else if c = '\x0c' then ['\\', 'f']
  else if c = '\n' then ['\\', 'n']
  else if c = '\r' then ['\\', 'r']
  else if c = '\t' then ['\\', 't']
  else if c.toNat < 0x20 then
    '\\' :: 'u' :: '0' :: '0' ::
      hexDigitChar (c.toNat / 16) :: hexDigitChar (c.toNat % 16) :: []
  else c :: []

/-- The escaped body of a JSON string literal. -/
def pyEscape (s : List Char) : List Char := s.flatMap pyEscapeChar

/-- A JSON string literal for `s`: quote, escaped body, quote. -/
def pyQuoteStr (s : String) : List Char := '"' :: (pyEscape s.data ++ ['"'])

/-- The members of a dumped object, with Python's default separators
`", "` and `": "`. -/
def pyDumpsEntries : List (String × String) → List Char
  | [] => []
  | [(k, v)] => pyQuoteStr k ++ ':' :: ' ' :: pyQuoteStr v
  | (k, v) :: rest =>
      pyQuoteStr k ++ ':' :: ' ' :: pyQuoteStr v ++ ',' :: ' ' :: pyDumpsEntries rest

/-- `json.dumps(m, ensure_ascii=False)` for a string-to-string dict `m`. -/
def pyJsonDumps (m : List (String × String)) : String :=
  String.mk ('{' :: (pyDumpsEntries m ++ ['}']))

/-- JSON insignificant whitespace (space, tab, newline, carriage return):
the character set of the `json.decoder` scanner's `WHITESPACE` regex. -/
def isJsonWs (c : Char) : Bool :=
  [' ', '\t', '\n', '\r'].contains c

/-- Drop leading JSON whitespace. -/
def dropJsonWs : List Char → List Char
  | c :: r => if isJsonWs c then dropJsonWs r else c :: r
  | [] => []

/-- Value of a hex digit character, for `\uXXXX` escapes. -/
def hexVal (c : Char) : Option Nat :=
  if '0'.toNat ≤ c.toNat ∧ c.toNat ≤ '9'.toNat then some (c.toNat - '0'.toNat)
  else if 'a'.toNat ≤ c.toNat ∧ c.toNat ≤ 'f'.toNat then some (c.toNat - 'a'.toNat + 10)
  else if 'A'.toNat ≤ c.toNat ∧ c.toNat ≤ 'F'.toNat then some (c.toNat - 'A'.toNat + 10)
  else none

/-- Combine four hex digits into a code unit. -/
def hexQuad (a b c d : Char) : Option Nat := do
  let x ← hexVal a
  let y ← hexVal b
  let z ← hexVal c
  let w ← hexVal d
  pure (((x * 16 + y) * 16 + z) * 16 + w)

/-- The single-character escapes `json.loads` accepts (besides `\u`). -/
def pyUnescapeChar (e : Char) : Option Char :=
  if e = '"' then some '"'
  else if e = '\\' then some '\\'
  else if e = '/' then some '/'
  else if e = 'b' then some '\x08'
  else if e = 'f' then some '\x0c'
  else if e = 'n' then some '\n'
  else if e = 'r' then some '\r'
  else if e = 't' then some '\t'
  else none

/-- Parse the body of a JSON string literal, after its opening quote, in
strict mode (`json.loads` default): raw control characters are rejected,
escapes are decoded, surrogate pairs in `\uXXXX` escapes are combined.
A lone surrogate escape is rejected (see the header note).  An incomplete
`\uXX` escape falls through to the single-escape clause, where `u` is no
valid single escape — rejected, like the Python scanner. -/
def parseStrBody : List Char → Option (List Char × List Char)
  | [] => none
  | '"' :: r => some ([], r)
  | '\\' :: 'u' :: a :: b :: c3 :: d :: r3 =>
    (match hexQuad a b c3 d with
     | none => none
     | some n =>
       if n < 0xd800 ∨ 0xdfff < n then
         (parseStrBody r3).map (fun p => (Char.ofNat n :: p.1, p.2))
       else if n ≤ 0xdbff then
         (match r3 with
          | '\\' :: 'u' :: a2 :: b2 :: c2 :: d2 :: r4 =>
            (match hexQuad a2 b2 c2 d2 with
             | none => none
             | some n2 =>
               if 0xdc00 ≤ n2 ∧ n2 ≤ 0xdfff then
                 (parseStrBody r4).map (fun p =>
                   (Char.ofNat (0x10000 + (n - 0xd800) * 0x400 + (n2 - 0xdc00)) :: p.1, p.2))
               else none)
          | _ => none)
       else none)
  | '\\' :: e :: r2 =>
    (match pyUnescapeChar e with
     | some ch => (parseStrBody r2).map (fun p => (ch :: p.1, p.2))
     | none => none)
  | c :: r =>
    if c.toNat < 0x20 then none
    else (parseStrBody r).map (fun p => (c :: p.1, p.2))
termination_by l => l.length
decreasing_by all_goals (simp <;> omega)

/-- Leading run of decimal digits. -/
def spanDigits : List Char → List Char × List Char
  | c :: r =>
      if '0'.toNat ≤ c.toNat ∧ c.toNat ≤ '9'.toNat then
        let p := spanDigits r
        (c :: p.1, p.2)
      else ([], c :: r)
  | [] => ([], [])

/-- Parse a JSON number token following Python's `NUMBER_RE`
(`-?(0|[1-9]\d*)(\.\d+)?([eE][-+]?\d+)?`); the optional fraction and
exponent groups only bind when complete, exactly as with a regex. -/
def parseNumTok (cs : List Char) : Option (List Char × List Char) :=
  let sign : List Char × List Char :=
    match cs with
    | '-' :: r => (['-'], r)
    | _ => ([], cs)
  let ip := spanDigits sign.2
  match ip.1 with
  | [] => none
  | d0 :: ds =>
    let intPart : List Char := if d0 = '0' then ['0'] else d0 :: ds
    let afterInt : List Char := if d0 = '0' then ds ++ ip.2 else ip.2
    let fr : List Char × List Char :=
      match afterInt with
      | '.' :: r =>
          let p := spanDigits r
          match p.1 with
          | [] => ([], afterInt)
          | _ => ('.' :: p.1, p.2)
      | _ => ([], afterInt)
    let ex : List Char × List Char :=
      match fr.2 with
      | 'e' :: r =>
          let sg : List Char × List Char :=
            match r with
            | '+' :: r2 => (['+'], r2)
            | '-' :: r2 => (['-'], r2)
            | _ => ([], r)
          let p := spanDigits sg.2
          match p.1 with
          | [] => ([], fr.2)
          | _ => ('e' :: sg.1 ++ p.1, p.2)
      | 'E' :: r =>
          let sg : List Char × List Char :=
            match r with
            | '+' :: r2 => (['+'], r2)
            | '-' :: r2 => (['-'], r2)
            | _ => ([], r)
          let p := spanDigits sg.2
          match p.1 with
          | [] => ([], fr.2)
          | _ => ('E' :: sg.1 ++ p.1, p.2)
      | _ => ([], fr.2)
    some (sign.1 ++ intPart ++ fr.1 ++ ex.1, ex.2)

/-- Does the input start with the given literal?  If so, return the rest.
Used for the scanner constants `null`, `true`, `false`, `NaN`,
`Infinity`, `-Infinity`. -/
def dropLit : List Char → List Char → Option (List Char)
  | [], r => some r
  | _ :: _, [] => none
  | l :: ls, c :: r => if c = l then dropLit ls r else none

mutual

/-- Parse one JSON value (leading whitespace already skipped by the caller),
fuel-bounded for totality.  Besides RFC values, the Python scanner accepts
the constants `NaN`, `Infinity` and `-Infinity`; they become number
tokens. -/
def parseJsonVal : Nat → List Char → Option (Json × List Char)
  | 0, _ => none
  | fuel + 1, cs =>
    match cs with
    | [] => none
    | c :: r =>
      if c = '"' then (parseStrBody r).map (fun p => (Json.str p.1, p.2))
      else if c = '[' then
        (match dropJsonWs r with
         | [] => none
         | c2 :: r2 =>
           if c2 = ']' then some (Json.arr [], r2)
           else (parseJsonElems fuel (c2 :: r2)).map (fun p => (Json.arr p.1, p.2)))
      else if c = '\x7b' then
        (match dropJsonWs r with
         | [] => none
         | c2 :: r2 =>
           if c2 = '\x7d' then some (Json.obj [], r2)
           else (parseJsonMembers fuel (c2 :: r2)).map (fun p => (Json.obj p.1, p.2)))
      else
        match dropLit ['n', 'u', 'l', 'l'] cs with
        | some r2 => some (Json.null, r2)
        | none =>
        match dropLit ['t', 'r', 'u', 'e'] cs with
        | some r2 => some (Json.bool true, r2)
        | none =>
        match dropLit ['f', 'a', 'l', 's', 'e'] cs with
        | some r2 => some (Json.bool false, r2)
        | none =>
        match dropLit ['N', 'a', 'N'] cs with
        | some r2 => some (Json.num ['N', 'a', 'N'], r2)
        | none =>
        match dropLit ['I', 'n', 'f', 'i', 'n', 'i', 't', 'y'] cs with
        | some r2 => some (Json.num ['I', 'n', 'f'], r2)
        | none =>
        match dropLit ['-', 'I', 'n', 'f', 'i', 'n', 'i', 't', 'y'] cs with
        | some r2 => some (Json.num ['-', 'I', 'n', 'f'], r2)
        | none => (parseNumTok cs).map (fun p => (Json.num p.1, p.2))

/-- One or more comma-separated array elements, up to the closing bracket. -/
def parseJsonElems : Nat → List Char → Option (List Json × List Char)
  | 0, _ => none
  | fuel + 1, cs =>
    match parseJsonVal fuel cs with
    | none => none
    | some (v, r) =>
      match dropJsonWs r with
      | [] => none
      | c2 :: r2 =>
        if c2 = ']' then some ([v], r2)
        else if c2 = ',' then
          (match parseJsonElems fuel (dropJsonWs r2) with
           | some (vs, r3) => some (v :: vs, r3)
           | none => none)
        else none

/-- One or more comma-separated object members, up to the closing brace. -/
def parseJsonMembers : Nat → List Char → Option (List (List Char × Json) × List Char)
  | 0, _ => none
  | fuel + 1, cs =>
    match cs with
    | [] => none
    | c :: r =>
      if c = '"' then
        (match parseStrBody r with
         | none => none
         | some (k, r1) =>
           match dropJsonWs r1 with
           | [] => none
           | c2 :: r2 =>
             if c2 = ':' then
               (match parseJsonVal fuel (dropJsonWs r2) with
                | none => none
                | some (v, r3) =>
                  match dropJsonWs r3 with
                  | [] => none
                  | c4 :: r4 =>
                    if c4 = '\x7d' then some ([(k, v)], r4)
                    else if c4 = ',' then
                      (match parseJsonMembers fuel (dropJsonWs r4) with
                       | some (ms, r5) => some ((k, v) :: ms, r5)
                       | none => none)
                    else none)
             else none)
      else none

end

/-- `json.loads`: skip surrounding whitespace, parse one value, reject
trailing characters.  The fuel `2 * length + 2` dominates the recursion
depth (every two fuel steps consume at least one character). -/
def pyJsonLoads (s : String) : Option Json :=
  let cs := s.data
  match parseJsonVal (2 * cs.length + 2) (dropJsonWs cs) with
  | some (v, rest) => if dropJsonWs rest = [] then some v else none
  | none => none

/-! ## Python views of parsed JSON values -/

/-- Python dict lookup on an object's raw member list: `json.loads` collapses
duplicate keys with the last occurrence winning, so lookup takes the last
binding. -/
def jsonObjGet (ms : List (List Char × Json)) (k : String) : Option Json :=
  (ms.reverse.find? (fun p => p.1 = k.data)).map (fun p => p.2)

/-- Does a number token denote zero (for Python truthiness)?  A token matching
`NUMBER_RE` is zero exactly when its mantissa has no digit `1`–`9`; the
constants `NaN`/`Infinity` contain letters and are truthy. -/
def jsonNumIsZero (tok : List Char) : Bool :=
  (tok.takeWhile (fun c => c ≠ 'e' ∧ c ≠ 'E')).all
    (fun c => c = '-' ∨ c = '+' ∨ c = '0' ∨ c = '.') &&
  !(tok.any (fun c => c = 'N' ∨ c = 'I'))

mutual

/-- Python `repr` of a parsed JSON value, approximately: `repr` quoting of
nested strings is simplified (no claim exercises `str()` of a non-scalar). -/
def pyReprJson : Json → String
  | .null => "None"
  | .bool true => "True"
  | .bool false => "False"
  | .num tok => String.mk tok
  | .str s => "\x27" ++ String.mk s ++ "\x27"
  | .arr es => "[" ++ pyReprJsonList es ++ "]"
  | .obj ms => "\x7b" ++ pyReprJsonMembers ms ++ "\x7d"

def pyReprJsonList : List Json → String
  | [] => ""
  | [j] => pyReprJson j
  | j :: js => pyReprJson j ++ ", " ++ pyReprJsonList js

def pyReprJsonMembers : List (List Char × Json) → String
  | [] => ""
  | [(k, v)] => "\x27" ++ String.mk k ++ "\x27: " ++ pyReprJson v
  | (k, v) :: ms => "\x27" ++ String.mk k ++ "\x27: " ++ pyReprJson v ++ ", " ++ pyReprJsonMembers ms

end

/-- Python `str()` of a parsed JSON value (`str` of a string is itself;
everything else renders as its `repr`). -/
def pyStrOfJson : Json → String
  | .str s => String.mk s
  | j => pyReprJson j

/-- Python truthiness of a parsed JSON value. -/
def pyTruthy : Json → Bool
  | .null => false
  | .bool b => b
  | .num tok => !jsonNumIsZero tok
  | .str s => !s.isEmpty
  | .arr es => !es.isEmpty
  | .obj ms => !ms.isEmpty

/-! ## The attribute codec (`main.py`: `_parse_attributes`)

```python
def _parse_attributes(attributes_text):
    if not attributes_text:
        return {}
    try:
        value = json.loads(attributes_text)
        return value if isinstance(value, dict) else {}
    except Exception:
        return {}
```

The input is the `items.attributes` column (`TEXT`, possibly `NULL`), hence
`Option String`; only `None` and `""` are falsy.  The returned dict keeps
value shapes (`Json`), since `json.loads` may produce non-string values. -/
def parseAttributes : Option String → List (String × Json)
  | none => []
  | some s =>
    if s = "" then []
    else
      match pyJsonLoads s with
      | some (Json.obj ms) => pyDictOfPairs (ms.map (fun p => (String.mk p.1, p.2)))
      | _ => []

/-! ## The category/schema store (`utils/category_config.py`)

The persisted override document `category_config.json` is modelled as
`Option ConfigDoc`: `none` is a missing or unreadable file; a present but
invalid document fails `_validate_config` on load and falls back to the
defaults, like the source.  `save_config` only ever writes string category
lists and normalized `{key, label, required}` field dicts, which is what
`ConfigDoc` captures; `_normalize_field` restricted to that shape is
`normalizeField`, and applied to freshly parsed JSON it is
`normalizeFieldJson`. -/

structure FieldDef where
  key : String
  label : String
  required : Bool
deriving DecidableEq

structure ConfigDoc where
  categories : List String
  categoryFields : List (String × List FieldDef)
deriving DecidableEq

/-- `constants.MAX_DYNAMIC_FIELDS`. -/
def MAX_DYNAMIC_FIELDS : Nat := 10

/-- `constants.CATEGORIES`. -/
def DEFAULT_CATEGORIES : List String :=
  ["书籍", "数码", "居家", "食品", "美妆",
   "票券", "衣饰", "鞋包", "运动", "文具",
   "玩具", "乐器", "其他"]

/-- `constants.CATEGORY_FIELDS`. -/
def DEFAULT_CATEGORY_FIELDS : List (String × List FieldDef) :=
  [("书籍", [⟨"author", "作者", true⟩, ⟨"publisher", "出版社", false⟩]),
   ("数码", [⟨"brand", "品牌", false⟩, ⟨"model", "型号", false⟩]),
   ("居家", [⟨"material", "材质", false⟩, ⟨"quantity", "数量", false⟩]),
   ("食品", [⟨"expiry_date", "保质期", true⟩, ⟨"quantity", "数量", true⟩]),
   ("美妆", [⟨"brand", "品牌", false⟩, ⟨"expiry_date", "保质期", false⟩]),
   ("票券", [⟨"valid_until", "有效期", false⟩]),
   ("衣饰", [⟨"size", "尺码", false⟩]),
   ("鞋包", [⟨"size", "尺码", false⟩, ⟨"brand", "品牌", false⟩]),
   ("运动", [⟨"brand", "品牌", false⟩]),
   ("文具", [⟨"brand", "品牌", false⟩]),
   ("玩具", [⟨"age_range", "适用年龄", false⟩]),
   ("乐器", [⟨"brand", "品牌", false⟩, ⟨"model", "型号", false⟩]),
   ("其他", [])]

/-- `_normalize_field` on a stored `{key, label, required}` dict. -/
def normalizeField (f : FieldDef) : Option FieldDef :=
  let key := pyStrip f.key
  let label := pyStrip f.label
  if key = "" ∨ label = "" then none else some ⟨key, label, f.required⟩

/-- `_normalize_field` on a freshly parsed JSON value (the `fields_json`
input of `upsert_category`): non-dicts are rejected; `key`/`label` go
through `str(...).strip()`; `required` through `bool(...)`. -/
def normalizeFieldJson (f : Json) : Option FieldDef :=
  match f with
  | .obj ms =>
    let key := pyStrip (match jsonObjGet ms "key" with
      | none => "" | some j => pyStrOfJson j)
    let label := pyStrip (match jsonObjGet ms "label" with
      | none => "" | some j => pyStrOfJson j)
    let required := match jsonObjGet ms "required" with
      | none => false | some j => pyTruthy j
    if key = "" ∨ label = "" then none else some ⟨key, label, required⟩
  | _ => none

/-- The per-category part of `_validate_config`: each field must normalize,
normalized keys must be unique within the category (`seen_keys`). -/
def checkFieldList (cat : String) : List FieldDef → List String → Option String
  | [], _ => none
  | f :: fs, seen =>
    match normalizeField f with
    | none => some (cat ++ " 的字段定义格式不正确（需要 key/label/required）")
    | some nf =>
      if nf.key ∈ seen then some (cat ++ " 的字段 key 重复：" ++ nf.key)
      else checkFieldList cat fs (nf.key :: seen)

/-- `_validate_config` over the `category_fields` entries, in insertion
order, stopping at the first violation. -/
def validateFieldsEntries : List (String × List FieldDef) → Bool × String
  | [] => (true, "OK")
  | (cat, fields) :: rest =>
    if pyStrip cat = "" then (false, "category_fields 的键必须是非空字符串")
    else if MAX_DYNAMIC_FIELDS < fields.length then
      (false, cat ++ " 的字段数量超过上限 " ++ toString MAX_DYNAMIC_FIELDS)
    else
      match checkFieldList cat fields [] with
      | some err => (false, err)
      | none => validateFieldsEntries rest

/-- `_validate_config`.  The type-shape checks (`isinstance` of list/str/
dict) hold by construction in the typed model; the duplicate check on the
stripped non-blank categories and the per-category field checks remain. -/
def validateConfig (cats : List String) (cf : List (String × List FieldDef)) :
    Bool × String :=
  let stripped := (cats.filter (fun c => pyStrip c ≠ "")).map pyStrip
  if stripped.Nodup then validateFieldsEntries cf
  else (false, "categories 存在重复项")

/-- The compiled-in default configuration. -/
def defaultConfig : ConfigDoc := ⟨DEFAULT_CATEGORIES, DEFAULT_CATEGORY_FIELDS⟩

/-- `load_config`: prefer a valid override document, else the defaults. -/
def load_config : Option ConfigDoc → ConfigDoc
  | none => defaultConfig
  | some d => if (validateConfig d.categories d.categoryFields).1 then d else defaultConfig

/-- Order-preserving deduplication with a `seen` set. -/
def dedupKeepFirst (seen : List String) : List String → List String
  | [] => []
  | c :: r => if c ∈ seen then dedupKeepFirst seen r else c :: dedupKeepFirst (c :: seen) r

/-- `get_categories`: strip and drop blanks, ensure the catch-all `"其他"`
is present (appending it last when missing), deduplicate keeping first
occurrences. -/
def get_categories (st : Option ConfigDoc) : List String :=
  let cfg := load_config st
  let categories := (cfg.categories.filter (fun c => pyStrip c ≠ "")).map pyStrip
  let categories := if "其他" ∈ categories then categories else categories ++ ["其他"]
  dedupKeepFirst [] categories

/-- `get_category_fields`: normalize every stored field list under its
stripped category key (skipping blank keys), truncate to the field limit,
then `setdefault` an empty list for every live category. -/
def get_category_fields (st : Option ConfigDoc) : List (String × List FieldDef) :=
  let cfg := load_config st
  let out := cfg.categoryFields.foldl
    (fun out p =>
      if pyStrip p.1 = "" then out
      else pyDictSet out (pyStrip p.1) ((p.2.filterMap normalizeField).take MAX_DYNAMIC_FIELDS))
    []
  (get_categories st).foldl (fun out c => pyDictSetdefault out c []) out

/-- `save_config`: validate, then strip/sync (re-key the map by stripped
names, drop blanks, ensure every category has an entry) and atomically
replace the stored document.  Failure leaves the store untouched. -/
def save_config (cats : List String) (cf : List (String × List FieldDef))
    (st : Option ConfigDoc) : (Bool × String) × Option ConfigDoc :=
  let v := validateConfig cats cf
  if v.1 then
    let cats2 := (cats.filter (fun c => pyStrip c ≠ "")).map pyStrip
    let cf2 := cf.foldl
      (fun d p => if pyStrip p.1 = "" then d else pyDictSet d (pyStrip p.1) p.2) []
    let cf3 := cats2.foldl (fun d c => pyDictSetdefault d c []) cf2
    ((true, "已保存类别配置"), some ⟨cats2, cf3⟩)
  else ((false, v.2), st)

/-- The field-list normalization loop of `upsert_category` (`seen_keys`
accumulates normalized keys; the first bad field or duplicate key aborts). -/
def normalizeFieldList : List Json → List String → Except String (List FieldDef)
  | [], _ => .ok []
  | f :: fs, seen =>
    match normalizeFieldJson f with
    | none => .error "属性定义项必须包含 key/label，required 可选"
    | some nf =>
      if nf.key ∈ seen then .error ("属性 key 重复：" ++ nf.key)
      else
        match normalizeFieldList fs (nf.key :: seen) with
        | .ok rest => .ok (nf :: rest)
        | .error e => .error e

/-- The tail of `upsert_category`: re-ensure the catch-all, then save. -/
def finishUpsert (cats : List String) (fm : List (String × List FieldDef))
    (st : Option ConfigDoc) : (Bool × String) × Option ConfigDoc :=
  let cats := if "其他" ∈ cats then cats else cats ++ ["其他"]
  save_config cats fm st

/-- `upsert_category(old_name, new_name, fields_json)`: `old_name` empty
after stripping means "insert"; otherwise rename (distinct names) or
fields-only update (same name). -/
def upsert_category (oldName newName fieldsJson : String) (st : Option ConfigDoc) :
    (Bool × String) × Option ConfigDoc :=
  let old : Option String :=
    if pyStrip oldName = "" then none else some (pyStrip oldName)
  let new := pyStrip newName
  if new = "" then ((false, "类型名称不能为空"), st)
  else if 20 < new.length then ((false, "类型名称过长（建议 ≤ 20 字符）"), st)
  else
    match pyJsonLoads (if fieldsJson = "" then "[]" else fieldsJson) with
    | none => ((false, "属性定义 JSON 解析失败"), st)
    | some (Json.arr fieldsRaw) =>
      (match normalizeFieldList fieldsRaw [] with
       | .error err => ((false, err), st)
       | .ok nfs =>
         if MAX_DYNAMIC_FIELDS < nfs.length then
           ((false, "属性数量超过上限 " ++ toString MAX_DYNAMIC_FIELDS), st)
         else
           let categories := get_categories st
           let fieldsMap := get_category_fields st
           match old with
           | none =>
             let categories :=
               if new ∈ categories then categories else categories ++ [new]
             finishUpsert categories (pyDictSet fieldsMap new nfs) st
           | some o =>
             if o ≠ new then
               if new ∈ categories then
                 ((false, "新类型名称已存在，不能改名为已有名称"), st)
               else if o ∉ categories then
                 ((false, "旧类型名称不存在，无法改名"), st)
               else
                 let categories := categories.map (fun c => if c = o then new else c)
                 finishUpsert categories (pyDictPop (pyDictSet fieldsMap new nfs) o) st
             else finishUpsert categories (pyDictSet fieldsMap o nfs) st)
    | some _ => ((false, "属性定义必须是 JSON 数组"), st)

/-- `delete_category(name)`: refuse blanks, the catch-all, and unknown
names; otherwise drop the category and its field definitions and save. -/
def delete_category (name : String) (st : Option ConfigDoc) :
    (Bool × String) × Option ConfigDoc :=
  let name := pyStrip name
  if name = "" then ((false, "请选择要删除的类型"), st)
  else if name = "其他" then ((false, "不能删除“其他”类型"), st)
  else
    let categories := get_categories st
    if name ∈ categories then
      save_config (categories.filter (fun c => c ≠ name))
        (pyDictPop (get_category_fields st) name) st
    else ((false, "类型不存在"), st)

/-! ## The users table (`utils/database.py`)

`users` rows in rowid order.  `id` is the SQLite rowid; the claims never
read it, so it is omitted.  `username` carries a `UNIQUE` constraint:
`register_user`/`add_user` surface a violation as `IntegrityError`, which
the model expresses as a membership test at insert. -/

structure UserRec where
  username : String
  password : String
  role : String
  status : String
  contact : String
  address : String
deriving DecidableEq

/-- `get_user_by_username`: `SELECT ... WHERE username = ?` (first row;
uniqueness makes it the only row). -/
def get_user_by_username (username : String) (db : List UserRec) : Option UserRec :=
  db.find? (fun u => u.username = username)

/-- `authenticate_user(username, password, require_approved)`. -/
def authenticate_user (username password : String) (db : List UserRec)
    (requireApproved : Bool) : Bool :=
  match get_user_by_username username db with
  | none => false
  | some u =>
    if requireApproved ∧ u.status ≠ "approved" then false
    else u.password = password

/-- `register_user(username, password, contact, address)`: strip all four
inputs, validate, then insert with `role='user'`, `status='pending'`; a
duplicate username trips the `UNIQUE` constraint at insert time and is
reported as `"用户名已存在"`. -/
def register_user (username password contact address : String)
    (db : List UserRec) : (Bool × String) × List UserRec :=
  let username := pyStrip username
  let password := pyStrip password
  let contact := pyStrip contact
  let address := pyStrip address
  if username = "" ∨ password = "" then ((false, "用户名和密码不能为空"), db)
  else if username.length < 3 then ((false, "用户名至少需要 3 个字符"), db)
  else if password.length < 6 then ((false, "密码至少需要 6 个字符"), db)
  else if contact = "" then ((false, "联系方式不能为空"), db)
  else if address = "" then ((false, "住址不能为空"), db)
  else if db.any (fun u => u.username = username) then ((false, "用户名已存在"), db)
  else ((true, "注册成功，等待管理员审批"),
        db ++ [⟨username, password, "user", "pending", contact, address⟩])

/-- `approve_user(target_username)`: not-found fails; already-approved is a
no-op success; otherwise flip `status` to `approved`. -/
def approve_user (targetUsername : String) (db : List UserRec) :
    (Bool × String) × List UserRec :=
  let target := pyStrip targetUsername
  if target = "" then ((false, "请输入要批准的用户名"), db)
  else
    match get_user_by_username target db with
    | none => ((false, "用户不存在"), db)
    | some u =>
      if u.status = "approved" then ((true, "该用户已是 approved 状态"), db)
      else ((true, "已批准该用户"),
            db.map (fun r =>
              if r.username = target then { r with status := "approved" } else r))

/-! ## The item catalog (`main.py`) -/

/-- An `items` row.  `description`, `address`, `image` are nullable columns;
`name`/`category` are `NOT NULL`; `contact`/`create_time`/`attributes` are
nullable but `add_item` always writes them, and no claim reads a `NULL`
there, so they are plain strings. -/
structure ItemRec where
  id : Int
  name : String
  category : String
  description : Option String
  address : Option String
  contact : String
  image : Option String
  createTime : String
  attributes : String
deriving DecidableEq

/-- `SELECT COALESCE(MAX(id), 0) + 1 FROM items`, the id `add_item`
assigns. -/
def nextItemId (db : List ItemRec) : Int :=
  (match db.map (fun it => it.id) with
   | [] => 0
   | x :: xs => xs.foldl max x) + 1

/-- The trimmed dynamic value `add_item` reads for field index `idx`:
`dynamic_values[idx]` when in range (else `""`), `None` becoming `""`,
then `str(...).strip()`. -/
def trimValAt (dv : List (Option String)) (idx : Nat) : String :=
  match (if idx < dv.length then dv.getD idx none else some "") with
  | none => ""
  | some s => pyStrip s

/-- The attribute-packing loop of `add_item`: walk the field definitions
with their index, take the matching dynamic value (`""` beyond the list),
`str(...).strip()` it (`None` becomes `""`), record missing required labels,
and store every field's (possibly empty) value in the dict. -/
def encodeAttrsGo (dv : List (Option String)) :
    List FieldDef → Nat → List (String × String) → List String →
    List (String × String) × List String
  | [], _, attrs, missing => (attrs, missing)
  | d :: rest, idx, attrs, missing =>
    if d.key = "" then encodeAttrsGo dv rest (idx + 1) attrs missing
    else
      let v : String := trimValAt dv idx
      let missing2 := if d.required ∧ v = "" then missing ++ [d.label] else missing
      encodeAttrsGo dv rest (idx + 1) (pyDictSet attrs d.key v) missing2

/-- Attribute encoding for a field-definition list and the (padded) dynamic
values: the attributes dict and the missing-required labels. -/
def encodeAttrs (defs : List FieldDef) (dv : List (Option String)) :
    List (String × String) × List String :=
  encodeAttrsGo dv defs 0 [] []

/-- Pad or truncate the dynamic values to `MAX_DYNAMIC_FIELDS` (`add_item`
extends with `""` or slices). -/
def padDynamicValues (dv : List (Option String)) : List (Option String) :=
  if dv.length < MAX_DYNAMIC_FIELDS then
    dv ++ List.replicate (MAX_DYNAMIC_FIELDS - dv.length) (some "")
  else dv.take MAX_DYNAMIC_FIELDS

/-- `add_item(name, category, description, address, contact, image,
*dynamic_values)`.  The UI echo outputs are dropped; the Gradio image
upload and `save_image` file copy are modelled by the optional stored path
`image`; `datetime.now()` is the explicit `now` argument.  Returns the
status message and the items table after the call.  Note that the category
is looked up in the schema store but never validated: an unknown category
simply yields an empty field-definition list. -/
def add_item (st : Option ConfigDoc) (db : List ItemRec)
    (name category : String) (description address : Option String)
    (contact : String) (image : Option String)
    (dynamicValues : List (Option String)) (now : String) :
    String × List ItemRec :=
  let dv := padDynamicValues dynamicValues
  if name = "" ∨ contact = "" then ("❌ 物品名称和联系方式不能为空！", db)
  else
    let fieldDefs := (pyDictGet (get_category_fields st) category).getD []
    let enc := encodeAttrs fieldDefs dv
    if enc.2 ≠ [] then ("❌ 请填写必填属性：" ++ pyJoin "、" enc.2, db)
    else
      let newId := nextItemId db
      ("✅ 成功添加物品：" ++ name,
       db ++ [⟨newId, name, category, description, address, contact, image, now,
               pyJsonDumps enc.1⟩])

/-- Python `int(text)`: strip whitespace, optional sign, decimal digits
(digit-group underscores are not modelled; no claim uses them). -/
def pyParseInt (s : String) : Option Int :=
  let t := pyStripL s.data
  let core : Option (Bool × List Char) :=
    match t with
    | '-' :: r => some (true, r)
    | '+' :: r => some (false, r)
    | r => some (false, r)
  match core with
  | some (neg, ds) =>
    if ds ≠ [] ∧ ds.all (fun c => '0'.toNat ≤ c.toNat ∧ c.toNat ≤ '9'.toNat) then
      let n : Nat := ds.foldl (fun a c => a * 10 + (c.toNat - '0'.toNat)) 0
      some (if neg then -(n : Int) else (n : Int))
    else none
  | none => none

/-- `delete_item(item_id)`: reject blanks and non-integers, not-found ids;
otherwise best-effort-delete the image (file effect out of scope) and
remove the row.  Returns the status message and the items table after. -/
def delete_item (itemId : String) (db : List ItemRec) : String × List ItemRec :=
  if itemId = "" then ("❌ 请输入要删除的物品ID！", db)
  else
    match pyParseInt itemId with
    | none => ("❌ 物品ID必须是数字！", db)
    | some n =>
      if db.any (fun it => it.id = n) then
        ("✅ 成功删除ID为 " ++ toString n ++ " 的物品",
         db.filter (fun it => it.id ≠ n))
      else ("❌ 物品ID不存在！", db)

/-! ## The search engine (`main.py`: `search_items`) -/

/-- The category-filter argument: a dropdown string or a checkbox-group
list (a Python `None` is falsy like `""` and `[]` and is covered by the
falsy test in `search_items`). -/
inductive CatFilter where
  | one (s : String)
  | many (l : List String)
deriving DecidableEq

/-- Is the filter falsy in Python (`not category_filter`)? -/
def catFilterFalsy : CatFilter → Bool
  | .one s => s = ""
  | .many l => l.isEmpty

/-- The keyword test on one item, with Python's short-circuit `or`:
`keyword.lower() in item['name'].lower() or keyword.lower() in
item.get('description', '').lower()`.  `load_items` always populates the
`description` key, so a `NULL` description reaches `.lower()` as `None`
and raises `AttributeError` — modelled as `Except.error`. -/
def keywordMatch (keyword : String) (it : ItemRec) : Except String Bool :=
  if lcContains it.name keyword then .ok true
  else
    match it.description with
    | none => .error "AttributeError: \x27NoneType\x27 object has no attribute \x27lower\x27"
    | some d => .ok (lcContains d keyword)

/-- Left-to-right filtering that propagates the first raised error, like a
Python list comprehension. -/
def filterExc (p : α → Except String Bool) : List α → Except String (List α)
  | [] => .ok []
  | x :: xs =>
    match p x with
    | .error e => .error e
    | .ok b =>
      match filterExc p xs with
      | .error e => .error e
      | .ok r => .ok (if b then x :: r else r)

/-- `search_items(keyword, category_filter)` on the loaded item list:
falsy filters become `"全部"`; a string filter other than `"全部"` keeps
its category; a list filter without `"全部"` keeps its members; then a
non-empty keyword filters by `keywordMatch`.  Returns the matching items
(HTML rendering is presentation and out of scope). -/
def search_items (keyword : String) (categoryFilter : CatFilter)
    (items : List ItemRec) : Except String (List ItemRec) :=
  let cf := if catFilterFalsy categoryFilter then CatFilter.one "全部" else categoryFilter
  let items1 :=
    match cf with
    | .one s => if s ≠ "全部" then items.filter (fun it => it.category = s) else items
    | .many l =>
      if "全部" ∉ l then items.filter (fun it => it.category ∈ l) else items
  if keyword = "" then .ok items1
  else filterExc (keywordMatch keyword) items1

/-! ## Admin category deletion (`main.py`: `admin_category_delete`)

The admin gate (`_is_admin_request`) and the Gradio echo outputs are UI
glue; the core below is the body after a passed gate: count the items
referencing the category, block with the count in the message, otherwise
delegate to `delete_category` and prefix its message. -/
def admin_category_delete (selectedCategory : String) (items : List ItemRec)
    (st : Option ConfigDoc) : String × Option ConfigDoc :=
  let sel := pyStrip selectedCategory
  if sel = "" then ("❌ 请选择要删除的类型", st)
  else
    let cnt := (items.filter (fun it => it.category = sel)).length
    if 0 < cnt then
      ("❌ 该类型下已有 " ++ toString cnt ++ " 条物品记录，不能删除", st)
    else
      let r := delete_category sel st
      ((if r.1.1 then "✅ " else "❌ ") ++ r.1.2, r.2)


/-! ## Specification views used by the theorems -/

/-- The labels of exactly the required fields whose trimmed value is empty
(skipping blank keys like the source loop), in field order — the list the
failure message of `add_item` must surface all at once. -/
def missingRequiredSpec (dv : List (Option String)) :
    List FieldDef → Nat → List String
  | [], _ => []
  | d :: rest, idx =>
    (if d.key ≠ "" ∧ d.required ∧ trimValAt dv idx = "" then [d.label] else [])
      ++ missingRequiredSpec dv rest (idx + 1)

/-- The category predicate of `search_items`, read off from its branches:
a falsy filter or the sentinel `"全部"` (as a string, or as a member of a
list filter) restricts nothing; otherwise the item category must equal the
string (or belong to the list). -/
def catKeep (cf : CatFilter) (it : ItemRec) : Bool :=
  match (if catFilterFalsy cf then CatFilter.one "全部" else cf) with
  | .one s => s = "全部" || it.category = s
  | .many l => ("全部" ∈ l) || it.category ∈ l

/-- The keyword predicate of `search_items` on an item whose description is
not `NULL`: an empty keyword keeps everything, otherwise a case-insensitive
substring match against the name or the description. -/
def kwKeep (keyword : String) (it : ItemRec) : Bool :=
  keyword = "" || lcContains it.name keyword
    || lcContains (it.description.getD "") keyword

/-! # Theorems

General lemmas about the Python-string and Python-dict helpers first, then
one theorem per claim (with shared lemmas factored out). -/

theorem dropWhile_head_false {p : Char → Bool} :
    ∀ {l : List Char} {c : Char} {t : List Char}, l.dropWhile p = c :: t → p c = false := by
  intro l
  induction l with
  | nil => intro c t h; simp [List.dropWhile] at h
  | cons a as ih =>
    intro c t h
    rw [List.dropWhile_cons] at h
    by_cases hp : p a
    · simp only [hp, if_true] at h
      exact ih h
    · simp only [hp, if_false] at h
      cases h
      simpa using hp

theorem dropWhile_of_head_false {p : Char → Bool} {l : List Char}
    (h : ∀ c, l.head? = some c → p c = false) : l.dropWhile p = l := by
  cases l with
  | nil => rfl
  | cons a as =>
    rw [List.dropWhile_cons, if_neg]
    simp [h a rfl]

theorem dropWhile_idem (p : Char → Bool) (l : List Char) :
    (l.dropWhile p).dropWhile p = l.dropWhile p := by
  cases h : l.dropWhile p with
  | nil => rfl
  | cons c t =>
    have hc := dropWhile_head_false h
    rw [List.dropWhile_cons, if_neg]
    simp [hc]

theorem getLast?_append_right {α : Type} {l q : List α} (hq : q ≠ []) :
    (l ++ q).getLast? = q.getLast? := by
  induction l with
  | nil => rfl
  | cons a as ih =>
    rw [List.cons_append, List.getLast?_cons, ih]
    cases q with
    | nil => exact absurd rfl hq
    | cons b bs => simp [List.getLast?_cons]

theorem getLast?_dropWhile {p : Char → Bool} {l : List Char}
    (h : l.dropWhile p ≠ []) : (l.dropWhile p).getLast? = l.getLast? := by
  conv_rhs => rw [← @List.takeWhile_append_dropWhile _ p l]
  exact (getLast?_append_right h).symm

theorem pyStripL_idem (l : List Char) : pyStripL (pyStripL l) = pyStripL l := by
  unfold pyStripL
  set f := l.dropWhile isPyWs with hf
  set q := f.reverse.dropWhile isPyWs with hq
  have h1 : q.reverse.dropWhile isPyWs = q.reverse := by
    apply dropWhile_of_head_false
    intro c hc
    rw [List.head?_reverse] at hc
    have hqne : q ≠ [] := by
      intro he
      rw [he] at hc
      simp at hc
    have h2 : q.getLast? = f.reverse.getLast? := getLast?_dropWhile (by rw [← hq]; exact hqne)
    rw [h2, List.getLast?_reverse] at hc
    cases hfv : f with
    | nil => rw [hfv] at hc; simp at hc
    | cons a as =>
      rw [hfv] at hc
      simp only [List.head?_cons, Option.some.injEq] at hc
      subst hc
      exact dropWhile_head_false (hf ▸ hfv)
  have h2 : q.dropWhile isPyWs = q := by
    rw [hq]
    exact dropWhile_idem _ _
  rw [h1, List.reverse_reverse, h2]

theorem pyStrip_idem (s : String) : pyStrip (pyStrip s) = pyStrip s := by
  simp [pyStrip, pyStripL_idem]

theorem pyStripL_length_le (l : List Char) : (pyStripL l).length ≤ l.length := by
  unfold pyStripL
  rw [List.length_reverse]
  calc ((l.dropWhile isPyWs).reverse.dropWhile isPyWs).length
      ≤ (l.dropWhile isPyWs).reverse.length := (List.dropWhile_sublist _).length_le
    _ = (l.dropWhile isPyWs).length := List.length_reverse _
    _ ≤ l.length := (List.dropWhile_sublist _).length_le

theorem pyStrip_length_le (s : String) : (pyStrip s).length ≤ s.length :=
  pyStripL_length_le s.data

/-! ## Lemmas about list lookup -/

theorem find?_append_right {α : Type} (p : α → Bool) (l1 l2 : List α)
    (h : ∀ x ∈ l1, p x = false) : (l1 ++ l2).find? p = l2.find? p := by
  induction l1 with
  | nil => rfl
  | cons a as ih =>
    rw [List.cons_append, List.find?_cons_of_neg, ih]
    · intro x hx
      exact h x (List.mem_cons_of_mem _ hx)
    · simp [h a (List.mem_cons_self _ _)]

/-- Inverting a successful `register_user`: none of the validations fired,
the username was fresh, and the new row was appended with `role='user'`,
`status='pending'`. -/
theorem register_user_success (username password contact address : String)
    (db : List UserRec)
    (h : ((register_user username password contact address db).1).1 = true) :
    pyStrip username ≠ "" ∧ pyStrip password ≠ "" ∧
    (∀ u ∈ db, u.username ≠ pyStrip username) ∧
    (register_user username password contact address db).2
      = db ++ [⟨pyStrip username, pyStrip password, "user", "pending",
                pyStrip contact, pyStrip address⟩] := by
  simp only [register_user] at h ⊢
  split_ifs at h ⊢ with h1 h2 h3 h4 h5 h6
  all_goals simp only [Prod.fst] at h
  refine ⟨?_, ?_, ?_, rfl⟩
  · intro he
    exact h1 (Or.inl he)
  · intro he
    exact h1 (Or.inr he)
  · intro u hu he
    exact h6 (List.any_eq_true.mpr ⟨u, hu, by simp [he]⟩)

/-- C8.  `authenticate(username, password, requireApproved)`: an absent
username yields `false`; `requireApproved` with a non-`approved` status
yields `false`; otherwise the result is exact plaintext equality of the
stored and supplied passwords.  And the spec scenario: after
`registerUser("bob","secret1","c","a")`, authentication with
`requireApproved` is `false` before `approveUser("bob")` and `true` after
it. -/
theorem authenticate_user_spec :
    (∀ (db : List UserRec) (username password : String) (ra : Bool),
        get_user_by_username username db = none →
        authenticate_user username password db ra = false)
  ∧ (∀ (db : List UserRec) (username password : String) (u : UserRec),
        get_user_by_username username db = some u → u.status ≠ "approved" →
        authenticate_user username password db true = false)
  ∧ (∀ (db : List UserRec) (username password : String) (ra : Bool) (u : UserRec),
        get_user_by_username username db = some u →
        (ra = false ∨ u.status = "approved") →
        (authenticate_user username password db ra = true ↔ u.password = password))
  ∧ ((register_user "bob" "secret1" "c" "a" []).1).1 = true
  ∧ authenticate_user "bob" "secret1" (register_user "bob" "secret1" "c" "a" []).2 true = false
  ∧ authenticate_user "bob" "secret1"
      (approve_user "bob" (register_user "bob" "secret1" "c" "a" []).2).2 true = true := by
  refine ⟨?_, ?_, ?_, by decide, by decide, by decide⟩
  · intro db username password ra h
    unfold authenticate_user
    rw [h]
  · intro db username password u h hst
    unfold authenticate_user
    rw [h]
    simp [hst]
  · intro db username password ra u h hra
    unfold authenticate_user
    rw [h]
    rcases hra with hra | hra
    · subst hra
      simp
    · simp [hra]

/-- Witness for C8 at concrete inputs. -/
theorem authenticate_user_spec_witness :
    authenticate_user "carol" "pw" [] true = false :=
  authenticate_user_spec.1 [] "carol" "pw" true rfl

/-- C9.  `registerUser` rejects (and inserts nothing) when the username is
shorter than 3 characters, the password shorter than 6, or contact/address
is empty; an otherwise-valid registration with a taken username fails with
the uniqueness-violation result `"用户名已存在"` and inserts nothing; and
every successful registration appends the row with `role="user"` and
`status="pending"`. -/
theorem register_user_spec (username password contact address : String)
    (db : List UserRec) :
    (username.length < 3 →
      ((register_user username password contact address db).1).1 = false ∧
      (register_user username password contact address db).2 = db)
  ∧ (password.length < 6 →
      ((register_user username password contact address db).1).1 = false ∧
      (register_user username password contact address db).2 = db)
  ∧ (contact = "" →
      ((register_user username password contact address db).1).1 = false ∧
      (register_user username password contact address db).2 = db)
  ∧ (address = "" →
      ((register_user username password contact address db).1).1 = false ∧
      (register_user username password contact address db).2 = db)
  ∧ (3 ≤ (pyStrip username).length → 6 ≤ (pyStrip password).length →
      pyStrip contact ≠ "" → pyStrip address ≠ "" →
      (∃ u ∈ db, u.username = pyStrip username) →
      register_user username password contact address db = ((false, "用户名已存在"), db))
  ∧ (((register_user username password contact address db).1).1 = true →
      (register_user username password contact address db).2
        = db ++ [⟨pyStrip username, pyStrip password, "user", "pending",
                  pyStrip contact, pyStrip address⟩]) := by
  refine ⟨?_, ?_, ?_, ?_, ?_, ?_⟩
  · intro h
    have hl : (pyStrip username).length < 3 := lt_of_le_of_lt (pyStrip_length_le _) h
    simp only [register_user]
    split_ifs with h1 h2 h3 h4 h5 h6
    all_goals first
      | exact ⟨rfl, rfl⟩
      | exact absurd hl h2
  · intro h
    have hl : (pyStrip password).length < 6 := lt_of_le_of_lt (pyStrip_length_le _) h
    simp only [register_user]
    split_ifs with h1 h2 h3 h4 h5 h6
    all_goals first
      | exact ⟨rfl, rfl⟩
      | exact absurd hl h3
  · intro h
    have hc : pyStrip contact = "" := by rw [h]; rfl
    simp only [register_user]
    split_ifs with h1 h2 h3 h4 h5 h6
    all_goals first
      | exact ⟨rfl, rfl⟩
      | exact absurd hc h4
  · intro h
    have ha : pyStrip address = "" := by rw [h]; rfl
    simp only [register_user]
    split_ifs with h1 h2 h3 h4 h5 h6
    all_goals first
      | exact ⟨rfl, rfl⟩
      | exact absurd ha h5
  · intro hu3 hp6 hc ha hex
    have hu0 : pyStrip username ≠ "" := by
      intro he
      rw [he] at hu3
      simp at hu3
    have hp0 : pyStrip password ≠ "" := by
      intro he
      rw [he] at hp6
      simp at hp6
    simp only [register_user]
    split_ifs with h1 h2 h3 h4
    · exact absurd h1 (by simp [hu0, hp0])
    · exact absurd hu3 (by omega)
    · exact absurd hp6 (by omega)
    · rfl
    · exfalso
      obtain ⟨u, hu, he⟩ := hex
      exact h4 (List.any_eq_true.mpr ⟨u, hu, by simp [he]⟩)
  · intro h
    exact (register_user_success username password contact address db h).2.2.2

/-- Witness for C9: the spec scenario `registerUser("a","short","c","addr")`
(password shorter than 6) fails and creates no record. -/
theorem register_user_spec_witness :
    ((register_user "a" "short" "c" "addr" []).1).1 = false ∧
    (register_user "a" "short" "c" "addr" []).2 = [] :=
  (register_user_spec "a" "short" "c" "addr" ([] : List UserRec)).2.1 (by decide)

/-- C10.  `register_user` strips the password before storing while
`authenticate_user` compares without trimming: after a successful
registration whose password carried surrounding whitespace, authentication
(under the stored, stripped username) succeeds exactly for the trimmed
password — in particular not for the string supplied at registration —
both before approval (with `require_approved=False`) and after
`approve_user`. -/
theorem register_strip_password_auth (username password contact address : String)
    (db : List UserRec)
    (hok : ((register_user username password contact address db).1).1 = true)
    (hws : password ≠ pyStrip password) :
    (∀ p, authenticate_user (pyStrip username) p
        (register_user username password contact address db).2 false = true
      ↔ p = pyStrip password)
  ∧ authenticate_user (pyStrip username) password
      (register_user username password contact address db).2 false = false
  ∧ (∀ p, authenticate_user (pyStrip username) p
        (approve_user (pyStrip username)
          (register_user username password contact address db).2).2 true = true
      ↔ p = pyStrip password) := by
  obtain ⟨hu, hp, hfresh, hdb⟩ :=
    register_user_success username password contact address db hok
  have hfind : get_user_by_username (pyStrip username)
      (register_user username password contact address db).2
      = some ⟨pyStrip username, pyStrip password, "user", "pending",
              pyStrip contact, pyStrip address⟩ := by
    rw [hdb]
    unfold get_user_by_username
    rw [find?_append_right]
    · simp
    · intro x hx
      simp [hfresh x hx]
  have hauth1 : ∀ p, authenticate_user (pyStrip username) p
      (register_user username password contact address db).2 false = true
      ↔ p = pyStrip password := by
    intro p
    unfold authenticate_user
    rw [hfind]
    simp [eq_comm]
  refine ⟨hauth1, ?_, ?_⟩
  · rw [Bool.eq_false_iff]
    intro hcontra
    exact hws ((hauth1 password).mp hcontra)
  · have happrove : (approve_user (pyStrip username)
        (register_user username password contact address db).2).2
        = db ++ [⟨pyStrip username, pyStrip password, "user", "approved",
                  pyStrip contact, pyStrip address⟩] := by
      simp only [approve_user, pyStrip_idem]
      rw [if_neg hu]
      simp only [hfind]
      rw [if_neg (by decide : ¬ ("pending" : String) = "approved")]
      simp only [hdb, List.map_append]
      congr 1
      · calc db.map (fun r =>
              if r.username = pyStrip username then
                { r with status := "approved" } else r)
              = db.map id :=
                List.map_congr_left (fun u hmem => by rw [if_neg (hfresh u hmem)]; rfl)
          _ = db := List.map_id _
      · simp
    intro p
    unfold authenticate_user
    rw [happrove]
    unfold get_user_by_username
    rw [find?_append_right]
    · simp [eq_comm]
    · intro x hx
      simp [hfresh x hx]

/-- Witness for C10 at a concrete registration with a padded password. -/
theorem register_strip_password_auth_witness :
    authenticate_user "bob" " secret1 "
      (register_user "bob" " secret1 " "c" "a" []).2 false = false ∧
    authenticate_user "bob" "secret1"
      (register_user "bob" " secret1 " "c" "a" []).2 false = true := by
  have h := register_strip_password_auth "bob" " secret1 " "c" "a" []
    (by decide) (by decide)
  exact ⟨h.2.1, (h.1 "secret1").mpr (by decide)⟩

/-! ## Lemmas about id assignment -/

theorem le_foldl_max_init : ∀ (xs : List Int) (x : Int), x ≤ xs.foldl max x := by
  intro xs
  induction xs with
  | nil => intro x; simp
  | cons a as ih =>
    intro x
    simp only [List.foldl_cons]
    exact le_trans (le_max_left x a) (ih _)

theorem le_foldl_max_mem : ∀ (xs : List Int) (x a : Int), a ∈ xs → a ≤ xs.foldl max x := by
  intro xs
  induction xs with
  | nil => intro x a ha; simp at ha
  | cons b bs ih =>
    intro x a ha
    rcases List.mem_cons.mp ha with rfl | hmem
    · simp only [List.foldl_cons]
      exact le_trans (le_max_right x a) (le_foldl_max_init _ _)
    · simp only [List.foldl_cons]
      exact ih _ a hmem

/-- Every id present before an `add_item` call is strictly below the id the
call assigns (`MAX + 1`). -/
theorem nextItemId_gt (db : List ItemRec) : ∀ it ∈ db, it.id < nextItemId db := by
  intro it hit
  unfold nextItemId
  have hm : it.id ∈ db.map (fun it => it.id) := List.mem_map_of_mem _ hit
  cases hmap : db.map (fun it => it.id) with
  | nil => rw [hmap] at hm; simp at hm
  | cons x xs =>
    rw [hmap] at hm
    dsimp only
    rcases List.mem_cons.mp hm with heq | hmem
    · have := le_foldl_max_init xs x
      omega
    · have := le_foldl_max_mem xs x it.id hmem
      omega

/-- C1 (amended).  Every successful `addItem` call appends one record whose
id is `max(ids of the items existing before the call, defaulting to 0) + 1`,
strictly greater than every id present at the call.  (The second half of
the original claim — that a deleted id is never reassigned — fails: see
the counterexample, where deleting the item holding the maximal id lets
`max+1` hand the same id out again.) -/
theorem add_item_id_max_plus_one (st : Option ConfigDoc) (db : List ItemRec)
    (name category : String) (description address : Option String)
    (contact : String) (image : Option String) (dv : List (Option String))
    (now : String)
    (hname : name ≠ "") (hcontact : contact ≠ "")
    (hmiss : (encodeAttrs ((pyDictGet (get_category_fields st) category).getD [])
        (padDynamicValues dv)).2 = []) :
    ∃ rec : ItemRec,
      (add_item st db name category description address contact image dv now).2
        = db ++ [rec]
      ∧ rec.id = nextItemId db
      ∧ ∀ it ∈ db, it.id < rec.id := by
  refine ⟨⟨nextItemId db, name, category, description, address, contact, image, now,
      pyJsonDumps (encodeAttrs ((pyDictGet (get_category_fields st) category).getD [])
        (padDynamicValues dv)).1⟩, ?_, rfl, nextItemId_gt db⟩
  simp only [add_item]
  rw [if_neg (by simp [hname, hcontact]), if_neg (by simp [hmiss])]

/-- Witness for C1 (amended): a concrete successful add on a one-item
catalog gets id `6 = max(5, 0) + 1`. -/
theorem add_item_id_max_plus_one_witness :
    ∃ rec : ItemRec,
      (add_item none [⟨5, "桌子", "其他", none, none, "qq", none, "t0", "\x7b\x7d"⟩]
        "椅子" "其他" none none "电话" none [] "t1").2
        = [⟨5, "桌子", "其他", none, none, "qq", none, "t0", "\x7b\x7d"⟩] ++ [rec]
      ∧ rec.id = nextItemId [⟨5, "桌子", "其他", none, none, "qq", none, "t0", "\x7b\x7d"⟩]
      ∧ ∀ it ∈ [(⟨5, "桌子", "其他", none, none, "qq", none, "t0", "\x7b\x7d"⟩ : ItemRec)],
          it.id < rec.id :=
  add_item_id_max_plus_one none _ "椅子" "其他" none none "电话" none [] "t1"
    (by decide) (by decide) (by decide)

/-- C1 (counterexample).  The original claim says an id removed by
`deleteItem` is never assigned to a later item.  Starting from an empty
catalog: `addItem` assigns id 1, `deleteItem(1)` removes it, and the next
`addItem` assigns id 1 again — the deleted id is reused. -/
theorem add_item_reuses_deleted_max_id :
    ((add_item none [] "旧书" "其他" none none "电话" none [] "t1").2.map
        (fun it => it.id) = [1])
  ∧ (delete_item "1" (add_item none [] "旧书" "其他" none none "电话" none [] "t1").2).1
      = "✅ 成功删除ID为 1 的物品"
  ∧ (delete_item "1" (add_item none [] "旧书" "其他" none none "电话" none [] "t1").2).2
      = []
  ∧ ((add_item none
        (delete_item "1" (add_item none [] "旧书" "其他" none none "电话" none [] "t1").2).2
        "新书" "其他" none none "电话" none [] "t2").2.map (fun it => it.id) = [1]) := by
  decide

/-- C2 (amended).  `addItem` performs no validation of the category
argument: whenever the category has no entry in the schema store (in
particular, any string outside `getCategories`, the live-category list the
claim refers to), the field-definition list defaults to empty, no required
field can be missing, and the call succeeds, storing the unknown category
verbatim.  Only the UI dropdown constrains the choice. -/
theorem add_item_accepts_unknown_category (st : Option ConfigDoc)
    (db : List ItemRec) (name category : String)
    (description address : Option String) (contact : String)
    (image : Option String) (dv : List (Option String)) (now : String)
    (hname : name ≠ "") (hcontact : contact ≠ "")
    (hdefs : pyDictGet (get_category_fields st) category = none) :
    (add_item st db name category description address contact image dv now).1
      = "✅ 成功添加物品：" ++ name
  ∧ (add_item st db name category description address contact image dv now).2
      = db ++ [⟨nextItemId db, name, category, description, address, contact, image, now,
               pyJsonDumps (encodeAttrs [] (padDynamicValues dv)).1⟩] := by
  have hgo : ∀ (dvp : List (Option String)), encodeAttrs [] dvp = ([], []) := fun _ => rfl
  constructor
  · simp only [add_item, hdefs, Option.getD_none]
    rw [if_neg (by simp [hname, hcontact]), if_neg (by simp [hgo])]
  · simp only [add_item, hdefs, Option.getD_none]
    rw [if_neg (by simp [hname, hcontact]), if_neg (by simp [hgo])]

/-- Witness for C2 (amended), doubling as the counterexample to the
original claim: `"不存在的类别"` is not a live category, yet `addItem`
accepts it. -/
theorem add_item_accepts_unknown_category_witness :
    ("不存在的类别" ∉ get_categories none)
  ∧ (add_item none [] "风扇" "不存在的类别" none none "电话" none [] "t").1
      = "✅ 成功添加物品：风扇"
  ∧ (add_item none [] "风扇" "不存在的类别" none none "电话" none [] "t").2
      = [] ++ [⟨nextItemId [], "风扇", "不存在的类别", none, none, "电话", none, "t",
               pyJsonDumps (encodeAttrs [] (padDynamicValues [])).1⟩] := by
  refine ⟨by decide, ?_⟩
  exact add_item_accepts_unknown_category none [] "风扇" "不存在的类别" none none "电话"
    none [] "t" (by decide) (by decide) (by decide)

/-- C2 (counterexample).  The original claim: every `addItem` call whose
category is not a current category is rejected.  Concretely refuted: the
category `"不存在的类别"` is outside `getCategories`, yet the call succeeds
and inserts the item. -/
theorem add_item_unknown_category_not_rejected :
    ("不存在的类别" ∉ get_categories none)
  ∧ (add_item none [] "风扇" "不存在的类别" none none "电话" none [] "t").1
      = "✅ 成功添加物品：风扇"
  ∧ ((add_item none [] "风扇" "不存在的类别" none none "电话" none [] "t").2.map
      (fun it => it.category)) = ["不存在的类别"] := by
  decide

/-! ## C3: missing required attributes -/

theorem encodeAttrsGo_snd (dv : List (Option String)) :
    ∀ (defs : List FieldDef) (idx : Nat) (attrs : List (String × String))
      (missing : List String),
      (encodeAttrsGo dv defs idx attrs missing).2
        = missing ++ missingRequiredSpec dv defs idx := by
  intro defs
  induction defs with
  | nil => intro idx attrs missing; simp [encodeAttrsGo, missingRequiredSpec]
  | cons d rest ih =>
    intro idx attrs missing
    rw [missingRequiredSpec]
    by_cases hk : d.key = ""
    · rw [encodeAttrsGo, if_pos hk, ih]
      simp [hk]
    · rw [encodeAttrsGo, if_neg hk, ih]
      by_cases hc : (d.required = true) ∧ trimValAt dv idx = ""
      · rw [if_pos hc, if_pos ⟨hk, hc.1, hc.2⟩]
        simp
      · rw [if_neg hc, if_neg (by intro hx; exact hc ⟨hx.2.1, hx.2.2⟩)]
        simp

theorem missingRequiredSpec_ne_nil (dv : List (Option String)) :
    ∀ (defs : List FieldDef) (idx i : Nat) (d : FieldDef),
      defs.get? i = some d → d.key ≠ "" → d.required = true →
      trimValAt dv (idx + i) = "" → missingRequiredSpec dv defs idx ≠ [] := by
  intro defs
  induction defs with
  | nil => intro idx i d hget; simp at hget
  | cons e rest ih =>
    intro idx i d hget hkey hreq hval
    cases i with
    | zero =>
      rw [List.get?_cons_zero, Option.some.injEq] at hget
      subst hget
      rw [missingRequiredSpec, if_pos ⟨hkey, by simp [hreq], by simpa using hval⟩]
      simp
    | succ j =>
      rw [List.get?_cons_succ] at hget
      have := ih (idx + 1) j d hget hkey hreq
        (by rw [show idx + 1 + j = idx + (j + 1) by omega]; exact hval)
      rw [missingRequiredSpec]
      simp only [ne_eq, List.append_eq_nil]
      intro hx
      exact this hx.2

/-- C3.  When the category schema has at least one required field (with a
real key, as every stored field has) whose corresponding dynamic value is
empty after trimming, `addItem` fails, the message lists the labels of all
such fields at once (`missingRequiredSpec`, joined with `、`), and the
items table is returned unchanged — no partial write. -/
theorem add_item_missing_required (st : Option ConfigDoc) (db : List ItemRec)
    (name category : String) (description address : Option String)
    (contact : String) (image : Option String) (dv : List (Option String))
    (now : String)
    (hname : name ≠ "") (hcontact : contact ≠ "")
    (hmiss : ∃ (i : Nat) (d : FieldDef),
      ((pyDictGet (get_category_fields st) category).getD []).get? i = some d
      ∧ d.key ≠ "" ∧ d.required = true
      ∧ trimValAt (padDynamicValues dv) i = "") :
    add_item st db name category description address contact image dv now
      = ("❌ 请填写必填属性：" ++ pyJoin "、"
          (missingRequiredSpec (padDynamicValues dv)
            ((pyDictGet (get_category_fields st) category).getD []) 0), db) := by
  have henc : (encodeAttrs ((pyDictGet (get_category_fields st) category).getD [])
      (padDynamicValues dv)).2
      = missingRequiredSpec (padDynamicValues dv)
          ((pyDictGet (get_category_fields st) category).getD []) 0 := by
    rw [encodeAttrs, encodeAttrsGo_snd]
    simp
  have hne : missingRequiredSpec (padDynamicValues dv)
      ((pyDictGet (get_category_fields st) category).getD []) 0 ≠ [] := by
    obtain ⟨i, d, hget, hkey, hreq, hval⟩ := hmiss
    exact missingRequiredSpec_ne_nil _ _ 0 i d hget hkey hreq (by simpa using hval)
  simp only [add_item]
  rw [if_neg (by simp [hname, hcontact]), if_pos (by rw [henc]; exact hne), henc]

/-- Witness for C3: adding a book without its required `author` field fails
with the message naming the label `作者` and leaves the empty catalog
empty. -/
theorem add_item_missing_required_witness :
    add_item none [] "旧书" "书籍" none none "电话" none [] "t"
      = ("❌ 请填写必填属性：" ++ pyJoin "、"
          (missingRequiredSpec (padDynamicValues [])
            ((pyDictGet (get_category_fields none) "书籍").getD []) 0), []) :=
  add_item_missing_required none [] "旧书" "书籍" none none "电话" none [] "t"
    (by decide) (by decide)
    ⟨0, ⟨"author", "作者", true⟩, by decide, by decide, by decide, by decide⟩

/-! ## C5: search composition -/

theorem filterExc_ok (keyword : String) (items : List ItemRec)
    (hdesc : ∀ it ∈ items, it.description ≠ none) :
    filterExc (keywordMatch keyword) items
      = .ok (items.filter (fun it => lcContains it.name keyword
          || lcContains (it.description.getD "") keyword)) := by
  induction items with
  | nil => rfl
  | cons it rest ih =>
    have hd := hdesc it (List.mem_cons_self _ _)
    have hrest := ih (fun x hx => hdesc x (List.mem_cons_of_mem _ hx))
    cases hdv : it.description with
    | none => exact absurd hdv hd
    | some d =>
      by_cases hn : lcContains it.name keyword
      · rw [filterExc]
        rw [show keywordMatch keyword it = .ok true by
          unfold keywordMatch; rw [if_pos hn]]
        rw [hrest]
        simp [List.filter_cons, hn]
      · rw [filterExc]
        rw [show keywordMatch keyword it = .ok (lcContains d keyword) by
          unfold keywordMatch; rw [if_neg hn, hdv]]
        rw [hrest]
        simp [List.filter_cons, hn, hdv]

/-- C5 (amended).  On a catalog whose loaded descriptions are all non-NULL,
`search_items` composes its two filters as logical AND — the category
restriction (`catKeep`) applied before the keyword test (`kwKeep`, a
case-insensitive substring match against name or description); the
sentinel `"全部"` (as the string filter, via a falsy filter, or as a member
of a list filter) restricts nothing, and with both filters empty every
item is returned.  (The original "missing description is never a match
failure" fails for a `NULL` description: see the counterexample.) -/
theorem search_items_spec (keyword : String) (cf : CatFilter)
    (items : List ItemRec)
    (hdesc : ∀ it ∈ items, it.description ≠ none) :
    search_items keyword cf items
      = .ok (items.filter (fun it => catKeep cf it && kwKeep keyword it))
  ∧ search_items "" (CatFilter.one "全部") items = .ok items
  ∧ (∀ it, catKeep (CatFilter.one "全部") it = true)
  ∧ (∀ it, catKeep (CatFilter.one "") it = true)
  ∧ (∀ it, catKeep (CatFilter.many []) it = true)
  ∧ (∀ (l : List String) it, "全部" ∈ l → catKeep (CatFilter.many l) it = true) := by
  refine ⟨?_, ?_, fun it => by simp [catKeep, catFilterFalsy],
    fun it => by simp [catKeep, catFilterFalsy],
    fun it => by simp [catKeep, catFilterFalsy],
    fun l it hl => by
      have hne : l ≠ [] := List.ne_nil_of_mem hl
      simp [catKeep, catFilterFalsy, hl, hne]⟩
  · have hcat : (match (if catFilterFalsy cf then CatFilter.one "全部" else cf) with
        | .one s => if s ≠ "全部" then items.filter (fun it => it.category = s) else items
        | .many l => if "全部" ∉ l then items.filter (fun it => it.category ∈ l) else items)
        = items.filter (catKeep cf) := by
      unfold catKeep
      cases (if catFilterFalsy cf then CatFilter.one "全部" else cf) with
      | one s =>
        by_cases hs : s = "全部"
        · simp [hs]
        · simp only [ne_eq, hs, not_false_eq_true, if_true]
          apply List.filter_congr
          intro it hit
          simp [hs]
      | many l =>
        by_cases hl : "全部" ∈ l
        · simp [hl]
        · simp only [hl, not_false_eq_true, if_true]
          apply List.filter_congr
          intro it hit
          simp [hl]
    by_cases hkw : keyword = ""
    · subst hkw
      simp only [search_items]
      rw [hcat, if_pos trivial]
      congr 1
      apply List.filter_congr
      intro it hit
      simp [kwKeep]
    · simp only [search_items]
      rw [hcat, if_neg hkw]
      rw [filterExc_ok keyword _ (fun x hx => hdesc x (List.mem_filter.mp hx).1)]
      rw [List.filter_filter]
      congr 1
      apply List.filter_congr
      intro it hit
      simp [kwKeep, hkw, Bool.and_comm]
  · simp [search_items, catFilterFalsy]

/-- Witness for C5 (amended) at a concrete two-item catalog: the keyword
matches one item's description, and the AND-composition keeps just it. -/
theorem search_items_spec_witness :
    search_items "九成" (CatFilter.one "全部")
        [⟨1, "自行车", "数码", some "九成新", none, "qq", none, "t", "\x7b\x7d"⟩,
         ⟨2, "台灯", "居家", some "有磨损", none, "qq", none, "t", "\x7b\x7d"⟩]
      = .ok ([⟨1, "自行车", "数码", some "九成新", none, "qq", none, "t", "\x7b\x7d"⟩,
              ⟨2, "台灯", "居家", some "有磨损", none, "qq", none, "t", "\x7b\x7d"⟩].filter
          (fun it => catKeep (CatFilter.one "全部") it && kwKeep "九成" it)) :=
  (search_items_spec "九成" (CatFilter.one "全部") _ (by decide)).1

/-- C5 (counterexample).  The claim promises a missing description is
treated as the empty string and is "never a match failure"; but
`load_items` always populates the `description` key, so a `NULL`
description reaches `None.lower()` and raises whenever the keyword is
non-empty and the name does not already match. -/
theorem search_items_null_description_raises :
    search_items "book" (CatFilter.one "全部")
        [⟨1, "杂志", "其他", none, none, "qq", none, "t", "\x7b\x7d"⟩]
      = .error "AttributeError: \x27NoneType\x27 object has no attribute \x27lower\x27" := by
  rfl

/-! ## C6: the catch-all category -/

theorem mem_dedupKeepFirst {a : String} :
    ∀ (l seen : List String), a ∈ l → a ∉ seen → a ∈ dedupKeepFirst seen l := by
  intro l
  induction l with
  | nil => intro seen h; simp at h
  | cons c r ih =>
    intro seen hmem hseen
    rw [dedupKeepFirst]
    rcases List.mem_cons.mp hmem with rfl | hr
    · rw [if_neg hseen]
      exact List.mem_cons_self _ _
    · by_cases hc : c ∈ seen
      · rw [if_pos hc]
        exact ih seen hr hseen
      · rw [if_neg hc]
        by_cases hac : a = c
        · subst hac
          exact List.mem_cons_self _ _
        · exact List.mem_cons_of_mem _
            (ih (c :: seen) hr (by simp [hseen, hac]))

/-- The catch-all is a member of every `get_categories` result. -/
theorem catch_all_mem_get_categories (st : Option ConfigDoc) :
    "其他" ∈ get_categories st := by
  unfold get_categories
  apply mem_dedupKeepFirst _ [] _ (by simp)
  by_cases hmem : "其他" ∈ ((load_config st).categories.filter
      (fun c => pyStrip c ≠ "")).map pyStrip
  · rw [if_pos hmem]
    exact hmem
  · rw [if_neg hmem]
    simp

/-- C6.  The catch-all category `"其他"` always exists: it is in every
`getCategories` result, hence it is re-ensured present after every
`upsertCategory` and `deleteCategory` (whatever their arguments and
outcome); `deleteCategory` on the catch-all always fails and changes
nothing; and a rename attempt (`upsert` with the catch-all as the old
name) still leaves the catch-all present. -/
theorem catch_all_category_invariant :
    (∀ st, "其他" ∈ get_categories st)
  ∧ (∀ st oldName newName fieldsJson,
      "其他" ∈ get_categories (upsert_category oldName newName fieldsJson st).2)
  ∧ (∀ st name, "其他" ∈ get_categories (delete_category name st).2)
  ∧ (∀ st, delete_category "其他" st = ((false, "不能删除“其他”类型"), st))
  ∧ (∀ st newName fieldsJson,
      "其他" ∈ get_categories (upsert_category "其他" newName fieldsJson st).2) :=
  ⟨catch_all_mem_get_categories,
   fun st o n f => catch_all_mem_get_categories (upsert_category o n f st).2,
   fun st n => catch_all_mem_get_categories (delete_category n st).2,
   fun st => by
     simp [delete_category, show pyStrip "其他" = "其他" from by decide],
   fun st n f => catch_all_mem_get_categories (upsert_category "其他" n f st).2⟩

/-! ## C7: referential-integrity guard on category deletion

The success half needs that a `delete_category` on a loaded configuration
re-validates and saves cleanly; the lemmas below establish that every
value the store hands out is already in normal form. -/

theorem normalizeField_eq_some {f nf : FieldDef} (h : normalizeField f = some nf) :
    nf = ⟨pyStrip f.key, pyStrip f.label, f.required⟩
    ∧ pyStrip f.key ≠ "" ∧ pyStrip f.label ≠ "" := by
  simp only [normalizeField] at h
  split_ifs at h with hc
  cases h
  push_neg at hc
  exact ⟨rfl, hc.1, hc.2⟩

theorem normalizeField_idem {f nf : FieldDef} (h : normalizeField f = some nf) :
    normalizeField nf = some nf := by
  obtain ⟨rfl, hk, hl⟩ := normalizeField_eq_some h
  unfold normalizeField
  rw [if_neg]
  · simp [pyStrip_idem]
  · simp [pyStrip_idem, hk, hl]

theorem mem_dedupKeepFirst_sub {a : String} :
    ∀ (l seen : List String), a ∈ dedupKeepFirst seen l → a ∈ l := by
  intro l
  induction l with
  | nil => intro seen h; simp [dedupKeepFirst] at h
  | cons c r ih =>
    intro seen h
    rw [dedupKeepFirst] at h
    by_cases hc : c ∈ seen
    · rw [if_pos hc] at h
      exact List.mem_cons_of_mem _ (ih _ h)
    · rw [if_neg hc] at h
      rcases List.mem_cons.mp h with rfl | hr
      · exact List.mem_cons_self _ _
      · exact List.mem_cons_of_mem _ (ih _ hr)

theorem dedupKeepFirst_nodup :
    ∀ (l seen : List String),
      (dedupKeepFirst seen l).Nodup ∧ ∀ a ∈ dedupKeepFirst seen l, a ∉ seen := by
  intro l
  induction l with
  | nil => intro seen; simp [dedupKeepFirst]
  | cons c r ih =>
    intro seen
    rw [dedupKeepFirst]
    by_cases hc : c ∈ seen
    · rw [if_pos hc]
      exact ih seen
    · rw [if_neg hc]
      obtain ⟨hnd, hout⟩ := ih (c :: seen)
      refine ⟨List.nodup_cons.mpr ⟨?_, hnd⟩, ?_⟩
      · intro hmem
        exact hout c hmem (List.mem_cons_self _ _)
      · intro a ha
        rcases List.mem_cons.mp ha with rfl | hr
        · exact hc
        · intro hseen
          exact hout a hr (List.mem_cons_of_mem _ hseen)

theorem dedupKeepFirst_eq_self :
    ∀ (l seen : List String), l.Nodup → (∀ a ∈ l, a ∉ seen) →
      dedupKeepFirst seen l = l := by
  intro l
  induction l with
  | nil => intro seen _ _; rfl
  | cons c r ih =>
    intro seen hnd hout
    rw [dedupKeepFirst, if_neg (hout c (List.mem_cons_self _ _))]
    congr 1
    apply ih
    · exact (List.nodup_cons.mp hnd).2
    · intro a ha
      simp only [List.mem_cons, not_or]
      exact ⟨fun he => (List.nodup_cons.mp hnd).1 (he ▸ ha),
             hout a (List.mem_cons_of_mem _ ha)⟩

/-- Every name `get_categories` returns is non-blank and already
stripped, and the list has no duplicates. -/
theorem get_categories_good (st : Option ConfigDoc) :
    (∀ c ∈ get_categories st, pyStrip c = c ∧ c ≠ "") ∧ (get_categories st).Nodup := by
  constructor
  · intro c hc
    unfold get_categories at hc
    have hmem := mem_dedupKeepFirst_sub _ _ hc
    have hbase : ∀ a ∈ (((load_config st).categories.filter
        (fun c => pyStrip c ≠ "")).map pyStrip) ++ ["其他"],
        pyStrip a = a ∧ a ≠ "" := by
      intro a ha
      rcases List.mem_append.mp ha with hin | hoth
      · obtain ⟨c0, hc0, rfl⟩ := List.mem_map.mp hin
        have hne : pyStrip c0 ≠ "" := by simpa using List.of_mem_filter hc0
        exact ⟨pyStrip_idem c0, hne⟩
      · rw [List.mem_singleton.mp hoth]
        exact ⟨by decide, by decide⟩
    by_cases hsplit : "其他" ∈ (((load_config st).categories.filter
        (fun c => pyStrip c ≠ "")).map pyStrip)
    · rw [if_pos hsplit] at hmem
      exact hbase c (List.mem_append_left _ hmem)
    · rw [if_neg hsplit] at hmem
      exact hbase c hmem
  · exact (dedupKeepFirst_nodup _ []).1

/-- Generic membership in the strip-keyed `pyDictSet` folds used by
`get_category_fields` and `save_config`. -/
theorem mem_pyDictSet {β : Type} {d : List (String × β)} {k : String} {v : β}
    {p : String × β} (hp : p ∈ pyDictSet d k v) : p = (k, v) ∨ p ∈ d := by
  unfold pyDictSet at hp
  split_ifs at hp with hany
  · obtain ⟨q, hq, hpq⟩ := List.mem_map.mp hp
    by_cases hqk : q.1 = k
    · rw [if_pos hqk] at hpq
      exact Or.inl hpq.symm
    · rw [if_neg hqk] at hpq
      exact Or.inr (hpq ▸ hq)
  · rcases List.mem_append.mp hp with hin | hone
    · exact Or.inr hin
    · exact Or.inl (List.mem_singleton.mp hone)

theorem mem_pyDictSetdefault {β : Type} {d : List (String × β)} {k : String}
    {v : β} {p : String × β} (hp : p ∈ pyDictSetdefault d k v) :
    p = (k, v) ∨ p ∈ d := by
  unfold pyDictSetdefault at hp
  split_ifs at hp with hany
  · exact Or.inr hp
  · rcases List.mem_append.mp hp with hin | hone
    · exact Or.inr hin
    · exact Or.inl (List.mem_singleton.mp hone)

theorem mem_foldl_dictSet {β : Type} (h : String × β → β) :
    ∀ (raw : List (String × β)) (acc : List (String × β)) (p : String × β),
      p ∈ raw.foldl (fun out q =>
        if pyStrip q.1 = "" then out else pyDictSet out (pyStrip q.1) (h q)) acc →
      p ∈ acc ∨ ∃ q ∈ raw, pyStrip q.1 ≠ "" ∧ p = (pyStrip q.1, h q) := by
  intro raw
  induction raw with
  | nil => intro acc p hp; exact Or.inl hp
  | cons q rest ih =>
    intro acc p hp
    rw [List.foldl_cons] at hp
    by_cases hq : pyStrip q.1 = ""
    · rw [if_pos hq] at hp
      rcases ih _ _ hp with hacc | ⟨r, hr, hrs, hpr⟩
      · exact Or.inl hacc
      · exact Or.inr ⟨r, List.mem_cons_of_mem _ hr, hrs, hpr⟩
    · rw [if_neg hq] at hp
      rcases ih _ _ hp with hacc | ⟨r, hr, hrs, hpr⟩
      · rcases mem_pyDictSet hacc with heq | hd
        · exact Or.inr ⟨q, List.mem_cons_self _ _, hq, heq⟩
        · exact Or.inl hd
      · exact Or.inr ⟨r, List.mem_cons_of_mem _ hr, hrs, hpr⟩

theorem mem_foldl_setdefault {β : Type} (v : β) :
    ∀ (cs : List String) (acc : List (String × β)) (p : String × β),
      p ∈ cs.foldl (fun d c => pyDictSetdefault d c v) acc →
      p ∈ acc ∨ (p.1 ∈ cs ∧ p.2 = v) := by
  intro cs
  induction cs with
  | nil => intro acc p hp; exact Or.inl hp
  | cons c rest ih =>
    intro acc p hp
    rw [List.foldl_cons] at hp
    rcases ih _ _ hp with hacc | ⟨hin, hv⟩
    · rcases mem_pyDictSetdefault hacc with heq | hd
      · exact Or.inr ⟨by rw [heq]; exact List.mem_cons_self _ _, by rw [heq]⟩
      · exact Or.inl hd
    · exact Or.inr ⟨List.mem_cons_of_mem _ hin, hv⟩

/-- The configuration `load_config` hands out always passes the
per-category field validation: a stored override only survives loading if
`_validate_config` accepted it, and the compiled-in defaults validate. -/
theorem load_config_fields_ok (st : Option ConfigDoc) :
    (validateFieldsEntries (load_config st).categoryFields).1 = true := by
  cases st with
  | none => decide
  | some d =>
    simp only [load_config]
    by_cases hv : (validateConfig d.categories d.categoryFields).1 = true
    · rw [if_pos hv]
      simp only [validateConfig] at hv
      split_ifs at hv with hnd
      exact hv
    · rw [if_neg hv]
      decide

theorem checkFieldList_none {cat : String} :
    ∀ (fl : List FieldDef) (seen : List String),
      checkFieldList cat fl seen = none →
      (∀ f ∈ fl, ∃ nf, normalizeField f = some nf)
      ∧ ((fl.filterMap normalizeField).map FieldDef.key).Nodup
      ∧ (∀ nf ∈ fl.filterMap normalizeField, nf.key ∉ seen) := by
  intro fl
  induction fl with
  | nil => intro seen _; refine ⟨by simp, by simp, by simp⟩
  | cons f fs ih =>
    intro seen h
    cases hnf : normalizeField f with
    | none => rw [checkFieldList, hnf] at h; cases h
    | some nf =>
      simp only [checkFieldList, hnf] at h
      by_cases hseen : nf.key ∈ seen
      · rw [if_pos hseen] at h; cases h
      · rw [if_neg hseen] at h
        obtain ⟨hall, hnd, hout⟩ := ih _ h
        have hfm : (f :: fs).filterMap normalizeField = nf :: fs.filterMap normalizeField := by
          simp [List.filterMap_cons, hnf]
        refine ⟨?_, ?_, ?_⟩
        · intro g hg
          rcases List.mem_cons.mp hg with rfl | hgs
          · exact ⟨nf, hnf⟩
          · exact hall g hgs
        · rw [hfm, List.map_cons, List.nodup_cons]
          refine ⟨?_, hnd⟩
          intro hmem
          obtain ⟨m, hm, hkey⟩ := List.mem_map.mp hmem
          exact hout m hm (hkey ▸ List.mem_cons_self _ _)
        · intro m hm
          rw [hfm] at hm
          rcases List.mem_cons.mp hm with rfl | hms
          · exact hseen
          · intro hs
            exact hout m hms (List.mem_cons_of_mem _ hs)

theorem checkFieldList_of_good {cat : String} :
    ∀ (fl : List FieldDef) (seen : List String),
      (∀ d ∈ fl, normalizeField d = some d) → (fl.map FieldDef.key).Nodup →
      (∀ d ∈ fl, d.key ∉ seen) → checkFieldList cat fl seen = none := by
  intro fl
  induction fl with
  | nil => intro seen _ _ _; rfl
  | cons d fs ih =>
    intro seen hall hnd hout
    simp only [checkFieldList, hall d (List.mem_cons_self _ _)]
    rw [if_neg (hout d (List.mem_cons_self _ _))]
    apply ih
    · intro e he
      exact hall e (List.mem_cons_of_mem _ he)
    · rw [List.map_cons] at hnd
      exact (List.nodup_cons.mp hnd).2
    · intro e he
      simp only [List.mem_cons, not_or]
      constructor
      · intro hek
        rw [List.map_cons, List.nodup_cons] at hnd
        exact hnd.1 (hek ▸ List.mem_map_of_mem _ he)
      · exact hout e (List.mem_cons_of_mem _ he)

theorem validateFieldsEntries_ok {cf : List (String × List FieldDef)} :
    (validateFieldsEntries cf).1 = true →
    ∀ p ∈ cf, pyStrip p.1 ≠ "" ∧ p.2.length ≤ MAX_DYNAMIC_FIELDS
      ∧ checkFieldList p.1 p.2 [] = none := by
  induction cf with
  | nil => intro _ p hp; simp at hp
  | cons q rest ih =>
    intro h p hp
    obtain ⟨cat, fl⟩ := q
    rw [validateFieldsEntries] at h
    by_cases h1 : pyStrip cat = ""
    · rw [if_pos h1] at h; simp at h
    · rw [if_neg h1] at h
      by_cases h2 : MAX_DYNAMIC_FIELDS < fl.length
      · rw [if_pos h2] at h; simp at h
      · rw [if_neg h2] at h
        cases h3 : checkFieldList cat fl [] with
        | some err => simp only [h3] at h; simp at h
        | none =>
          simp only [h3] at h
          rcases List.mem_cons.mp hp with rfl | hrest
          · exact ⟨h1, Nat.le_of_not_lt h2, h3⟩
          · exact ih h p hrest

theorem validateFieldsEntries_of_good {cf : List (String × List FieldDef)} :
    (∀ p ∈ cf, pyStrip p.1 ≠ "" ∧ p.2.length ≤ MAX_DYNAMIC_FIELDS
      ∧ (∀ d ∈ p.2, normalizeField d = some d) ∧ (p.2.map FieldDef.key).Nodup) →
    validateFieldsEntries cf = (true, "OK") := by
  induction cf with
  | nil => intro _; rfl
  | cons q rest ih =>
    intro h
    obtain ⟨cat, fl⟩ := q
    obtain ⟨h1, h2, h3, h4⟩ := h _ (List.mem_cons_self _ _)
    rw [validateFieldsEntries, if_neg h1, if_neg (Nat.not_lt.mpr h2),
      checkFieldList_of_good fl [] h3 h4 (by simp)]
    exact ih (fun p hp => h p (List.mem_cons_of_mem _ hp))

/-- Every entry `get_category_fields` hands out is good: a stripped
non-blank key, at most `MAX_DYNAMIC_FIELDS` fields, all fixed by
`_normalize_field`, with pairwise-distinct keys. -/
theorem get_category_fields_good (st : Option ConfigDoc) :
    ∀ p ∈ get_category_fields st,
      pyStrip p.1 = p.1 ∧ p.1 ≠ "" ∧ p.2.length ≤ MAX_DYNAMIC_FIELDS
      ∧ (∀ d ∈ p.2, normalizeField d = some d) ∧ (p.2.map FieldDef.key).Nodup := by
  intro p hp
  unfold get_category_fields at hp
  rcases mem_foldl_setdefault _ _ _ _ hp with hfold | ⟨hcat, hval⟩
  · rcases mem_foldl_dictSet _ _ _ _ hfold with hacc | ⟨q, hq, hqs, hpq⟩
    · simp at hacc
    · subst hpq
      have hfl := validateFieldsEntries_ok (load_config_fields_ok st) q hq
      obtain ⟨hnorm, hnd, _⟩ := checkFieldList_none q.2 [] hfl.2.2
      refine ⟨pyStrip_idem _, hqs, ?_, ?_, ?_⟩
      · rw [List.length_take]
        exact min_le_left _ _
      · intro d hd
        have hd2 := List.mem_of_mem_take hd
        obtain ⟨f, _, hfd⟩ := List.mem_filterMap.mp hd2
        exact normalizeField_idem hfd
      · exact hnd.sublist (List.Sublist.map _ (List.take_sublist _ _))
  · obtain ⟨hgood, _⟩ := get_categories_good st
    obtain ⟨hs, hne⟩ := hgood p.1 hcat
    rw [hval]
    exact ⟨hs, hne, by simp [MAX_DYNAMIC_FIELDS], by simp, by simp⟩

theorem filter_strip_id {l : List String} (h : ∀ c ∈ l, pyStrip c = c ∧ c ≠ "") :
    (l.filter (fun c => pyStrip c ≠ "")).map pyStrip = l := by
  have hf : l.filter (fun c => pyStrip c ≠ "") = l :=
    List.filter_eq_self.mpr (fun a ha => by simp [(h a ha).1, (h a ha).2])
  rw [hf]
  calc l.map pyStrip = l.map id := List.map_congr_left (fun a ha => (h a ha).1)
    _ = l := List.map_id _

theorem validateConfig_of_good {cats : List String}
    {cf : List (String × List FieldDef)}
    (hc : ∀ c ∈ cats, pyStrip c = c ∧ c ≠ "") (hnd : cats.Nodup)
    (hcf : ∀ p ∈ cf, pyStrip p.1 ≠ "" ∧ p.2.length ≤ MAX_DYNAMIC_FIELDS
      ∧ (∀ d ∈ p.2, normalizeField d = some d) ∧ (p.2.map FieldDef.key).Nodup) :
    validateConfig cats cf = (true, "OK") := by
  simp only [validateConfig]
  rw [filter_strip_id hc, if_pos hnd]
  exact validateFieldsEntries_of_good hcf

/-- `save_config` on inputs in store normal form: it succeeds, stores the
categories verbatim, and every stored field entry comes either from the
input map (under its stripped key) or is a `setdefault`-added empty list;
the stored document re-validates. -/
theorem save_config_good {cats : List String} {cf : List (String × List FieldDef)}
    (st : Option ConfigDoc)
    (hc : ∀ c ∈ cats, pyStrip c = c ∧ c ≠ "") (hnd : cats.Nodup)
    (hcf : ∀ p ∈ cf, pyStrip p.1 ≠ "" ∧ p.2.length ≤ MAX_DYNAMIC_FIELDS
      ∧ (∀ d ∈ p.2, normalizeField d = some d) ∧ (p.2.map FieldDef.key).Nodup) :
    ∃ cf3, save_config cats cf st = ((true, "已保存类别配置"), some ⟨cats, cf3⟩)
      ∧ (∀ p ∈ cf3, (∃ q ∈ cf, p = (pyStrip q.1, q.2)) ∨ (p.1 ∈ cats ∧ p.2 = []))
      ∧ (validateConfig cats cf3).1 = true := by
  have hmem3 : ∀ p ∈ cats.foldl (fun d c => pyDictSetdefault d c [])
      (cf.foldl (fun d p => if pyStrip p.1 = "" then d
        else pyDictSet d (pyStrip p.1) p.2) []),
      (∃ q ∈ cf, p = (pyStrip q.1, q.2)) ∨ (p.1 ∈ cats ∧ p.2 = []) := by
    intro p hp
    rcases mem_foldl_setdefault _ _ _ _ hp with hin | ⟨hc1, hc2⟩
    · rcases mem_foldl_dictSet _ _ _ _ hin with hemp | ⟨q, hq, _, hpq⟩
      · simp at hemp
      · exact Or.inl ⟨q, hq, hpq⟩
    · exact Or.inr ⟨hc1, hc2⟩
  refine ⟨_, ?_, hmem3, ?_⟩
  · simp only [save_config]
    rw [validateConfig_of_good hc hnd hcf]
    rw [if_pos rfl, filter_strip_id hc]
  · have hgood3 : ∀ p ∈ cats.foldl (fun d c => pyDictSetdefault d c [])
        (cf.foldl (fun d p => if pyStrip p.1 = "" then d
          else pyDictSet d (pyStrip p.1) p.2) []),
        pyStrip p.1 ≠ "" ∧ p.2.length ≤ MAX_DYNAMIC_FIELDS
        ∧ (∀ d ∈ p.2, normalizeField d = some d) ∧ (p.2.map FieldDef.key).Nodup := by
      intro p hp
      rcases hmem3 p hp with ⟨q, hq, rfl⟩ | ⟨hc1, hc2⟩
      · obtain ⟨h1, h2, h3, h4⟩ := hcf q hq
        exact ⟨by rw [pyStrip_idem]; exact h1, h2, h3, h4⟩
      · rw [hc2]
        exact ⟨by rw [(hc p.1 hc1).1]; exact (hc p.1 hc1).2,
          by simp [MAX_DYNAMIC_FIELDS], by simp, by simp⟩
    rw [validateConfig_of_good hc hnd hgood3]

theorem get_categories_of_valid_doc {cats : List String}
    {cf3 : List (String × List FieldDef)}
    (hc : ∀ c ∈ cats, pyStrip c = c ∧ c ≠ "") (hnd : cats.Nodup)
    (hoth : "其他" ∈ cats) (hv : (validateConfig cats cf3).1 = true) :
    get_categories (some ⟨cats, cf3⟩) = cats := by
  unfold get_categories
  have hload : load_config (some ⟨cats, cf3⟩) = ⟨cats, cf3⟩ := by
    simp only [load_config]
    rw [if_pos hv]
  rw [hload]
  simp only
  rw [filter_strip_id hc, if_pos hoth]
  exact dedupKeepFirst_eq_self cats [] hnd (by simp)

theorem pyDictGet_none_of {α : Type} {d : List (String × α)} {k : String}
    (h : ∀ p ∈ d, p.1 ≠ k) : pyDictGet d k = none := by
  have hf : d.find? (fun p => p.1 = k) = none :=
    List.find?_eq_none.mpr (fun x hx => by simp [h x hx])
  simp [pyDictGet, hf]

/-- C7.  `admin_category_delete` (after the admin gate): when at least one
item references the (stripped) selected category, it fails with a message
carrying the exact count of referencing items and leaves the configuration
untouched; when no item references it and the category is live and not the
catch-all, it succeeds and removes both the category and its field
definitions from the store. -/
theorem admin_category_delete_spec (selected : String) (items : List ItemRec)
    (st : Option ConfigDoc) :
    (pyStrip selected ≠ "" →
      0 < (items.filter (fun it => it.category = pyStrip selected)).length →
      admin_category_delete selected items st
        = ("❌ 该类型下已有 "
            ++ toString (items.filter (fun it => it.category = pyStrip selected)).length
            ++ " 条物品记录，不能删除", st)
      ∧ ∃ a b, (admin_category_delete selected items st).1
          = a ++ toString (items.filter
              (fun it => it.category = pyStrip selected)).length ++ b)
  ∧ ((items.filter (fun it => it.category = pyStrip selected)).length = 0 →
      pyStrip selected ∈ get_categories st →
      pyStrip selected ≠ "其他" →
      (admin_category_delete selected items st).1 = "✅ 已保存类别配置"
      ∧ pyStrip selected ∉ get_categories (admin_category_delete selected items st).2
      ∧ pyDictGet (get_category_fields (admin_category_delete selected items st).2)
          (pyStrip selected) = none) := by
  constructor
  · intro hne hcnt
    have heq : admin_category_delete selected items st
        = ("❌ 该类型下已有 "
            ++ toString (items.filter (fun it => it.category = pyStrip selected)).length
            ++ " 条物品记录，不能删除", st) := by
      simp only [admin_category_delete]
      rw [if_neg hne, if_pos hcnt]
    exact ⟨heq, "❌ 该类型下已有 ", " 条物品记录，不能删除", by rw [heq]⟩
  · intro hcnt hmem hoth
    have hne : pyStrip selected ≠ "" := ((get_categories_good st).1 _ hmem).2
    -- goodness of the two arguments handed to save_config
    have hc' : ∀ c ∈ (get_categories st).filter (fun c => c ≠ pyStrip selected),
        pyStrip c = c ∧ c ≠ "" := by
      intro c hc
      exact (get_categories_good st).1 c (List.mem_of_mem_filter hc)
    have hnd' : ((get_categories st).filter (fun c => c ≠ pyStrip selected)).Nodup :=
      (get_categories_good st).2.filter _
    have hcf' : ∀ p ∈ pyDictPop (get_category_fields st) (pyStrip selected),
        pyStrip p.1 ≠ "" ∧ p.2.length ≤ MAX_DYNAMIC_FIELDS
        ∧ (∀ d ∈ p.2, normalizeField d = some d) ∧ (p.2.map FieldDef.key).Nodup := by
      intro p hp
      obtain ⟨h1, h2, h3, h4, h5⟩ :=
        get_category_fields_good st p (List.mem_of_mem_filter hp)
      exact ⟨by rw [h1]; exact h2, h3, h4, h5⟩
    obtain ⟨cf3, hsave, hmem3, hvalid3⟩ :=
      @save_config_good ((get_categories st).filter (fun c => c ≠ pyStrip selected))
        (pyDictPop (get_category_fields st) (pyStrip selected)) st hc' hnd' hcf'
    have hdel : delete_category (pyStrip selected) st
        = ((true, "已保存类别配置"),
           some ⟨(get_categories st).filter (fun c => c ≠ pyStrip selected), cf3⟩) := by
      simp only [delete_category, pyStrip_idem]
      rw [if_neg hne, if_neg hoth, if_pos hmem]
      exact hsave
    have hadmin : admin_category_delete selected items st
        = ("✅ " ++ "已保存类别配置",
           some ⟨(get_categories st).filter (fun c => c ≠ pyStrip selected), cf3⟩) := by
      simp only [admin_category_delete]
      rw [if_neg hne, if_neg (by omega), hdel]
      rfl
    have hoth2 : "其他" ∈ (get_categories st).filter (fun c => c ≠ pyStrip selected) := by
      apply List.mem_filter.mpr
      exact ⟨catch_all_mem_get_categories st, by simp [Ne.symm hoth]⟩
    have hcats2 : get_categories (some ⟨(get_categories st).filter
        (fun c => c ≠ pyStrip selected), cf3⟩)
        = (get_categories st).filter (fun c => c ≠ pyStrip selected) :=
      get_categories_of_valid_doc hc' hnd' hoth2 hvalid3
    refine ⟨by rw [hadmin]; rfl, ?_, ?_⟩
    · rw [hadmin]
      dsimp only
      rw [hcats2]
      intro hbad
      have := List.of_mem_filter hbad
      simp at this
    · rw [hadmin]
      dsimp only
      apply pyDictGet_none_of
      intro p hp
      unfold get_category_fields at hp
      rcases mem_foldl_setdefault _ _ _ _ hp with hfold | ⟨hcat, _⟩
      · rcases mem_foldl_dictSet _ _ _ _ hfold with hacc | ⟨q, hq, _, hpq⟩
        · simp at hacc
        · have hload : load_config (some ⟨(get_categories st).filter
              (fun c => c ≠ pyStrip selected), cf3⟩)
              = ⟨(get_categories st).filter (fun c => c ≠ pyStrip selected), cf3⟩ := by
            simp only [load_config]
            rw [if_pos hvalid3]
          rw [hload] at hq
          rcases hmem3 q hq with ⟨r, hr, hqr⟩ | ⟨hc1, _⟩
          · have hrgood := get_category_fields_good st r (List.mem_of_mem_filter hr)
            have hrne : r.1 ≠ pyStrip selected := by
              have := List.of_mem_filter hr
              simpa using this
            rw [hpq, hqr]
            simp only
            rw [pyStrip_idem, hrgood.1]
            exact hrne
          · have hcne : q.1 ≠ pyStrip selected := by
              have := List.of_mem_filter hc1
              simpa using this
            rw [hpq]
            simp only
            rw [(hc' q.1 hc1).1]
            exact hcne
      · rw [hcats2] at hcat
        have := List.of_mem_filter hcat
        simpa using this

/-- Witness for C7 at concrete inputs: deleting `"书籍"` while one item
references it is blocked with the count `1` in the message; deleting
`"乐器"` with no referencing items removes it. -/
theorem admin_category_delete_spec_witness :
    (admin_category_delete "书籍"
        [⟨1, "旧书", "书籍", none, none, "qq", none, "t", "\x7b\x7d"⟩] none
      = ("❌ 该类型下已有 " ++ toString 1 ++ " 条物品记录，不能删除", none))
  ∧ ((admin_category_delete "乐器" [] none).1 = "✅ 已保存类别配置"
      ∧ "乐器" ∉ get_categories (admin_category_delete "乐器" [] none).2) := by
  constructor
  · exact ((admin_category_delete_spec "书籍"
      [⟨1, "旧书", "书籍", none, none, "qq", none, "t", "\x7b\x7d"⟩] none).1
      (by decide) (by decide)).1
  · have h := (admin_category_delete_spec "乐器" [] none).2
      (by decide) (by decide) (by decide)
    exact ⟨h.1, h.2.1⟩

/-! ## C4: the attribute codec

The round-trip law `decode(encode_as_string(m)) == m` reduces to: the
parser inverts the serializer on every dumped string-to-string dict.  The
escape-inverse lemma below handles string bodies; the member lemma walks
the dumped entries with enough fuel; the top level assembles them. -/

theorem hexVal_hexDigitChar : ∀ d : Nat, d < 16 → hexVal (hexDigitChar d) = some d := by
  decide

theorem parseStrBody_escapeChar (c : Char) (rest : List Char) :
    parseStrBody (pyEscapeChar c ++ rest)
      = (parseStrBody rest).map (fun p => (c :: p.1, p.2)) := by
  unfold pyEscapeChar
  split_ifs with h1 h2 h3 h4 h5 h6 h7 h8
  · subst h1; simp [parseStrBody, pyUnescapeChar]
  · subst h2; simp [parseStrBody, pyUnescapeChar]
  · subst h3; simp [parseStrBody, pyUnescapeChar]
  · subst h4; simp [parseStrBody, pyUnescapeChar]
  · subst h5; simp [parseStrBody, pyUnescapeChar]
  · subst h6; simp [parseStrBody, pyUnescapeChar]
  · subst h7; simp [parseStrBody, pyUnescapeChar]
  · -- the `\u00XX` escape for the remaining control characters
    have hhi : c.toNat / 16 < 16 := by omega
    have hlo : c.toNat % 16 < 16 := Nat.mod_lt _ (by omega)
    have hq : hexQuad '0' '0' (hexDigitChar (c.toNat / 16)) (hexDigitChar (c.toNat % 16))
        = some c.toNat := by
      simp only [hexQuad, hexVal_hexDigitChar _ hhi, hexVal_hexDigitChar _ hlo,
        show hexVal '0' = some 0 from by decide, Option.bind_eq_bind, Option.some_bind,
        Option.pure_def]
      exact congrArg some (by omega)
    simp only [List.cons_append, List.nil_append, parseStrBody, hq]
    rw [if_pos (Or.inl (by omega : c.toNat < 0xd800))]
    rw [Char.ofNat_toNat]
  · -- ordinary character, emitted verbatim
    rw [List.singleton_append, parseStrBody.eq_def]
    split
    · rename_i heq
      cases heq
    · rename_i heq
      rw [List.cons.injEq] at heq
      exact absurd heq.1 h2
    · rename_i heq
      rw [List.cons.injEq] at heq
      exact absurd heq.1 h1
    · rename_i heq
      rw [List.cons.injEq] at heq
      exact absurd heq.1 h1
    · rename_i heq
      rw [List.cons.injEq] at heq
      obtain ⟨rfl, rfl⟩ := heq
      rw [if_neg h8]

theorem parseStrBody_escape (s : List Char) :
    ∀ rest : List Char,
      parseStrBody (pyEscape s ++ '"' :: rest) = some (s, rest) := by
  induction s with
  | nil => intro rest; simp [pyEscape, parseStrBody]
  | cons c cs ih =>
    intro rest
    rw [pyEscape, List.flatMap_cons, List.append_assoc]
    rw [show cs.flatMap pyEscapeChar = pyEscape cs from rfl]
    rw [parseStrBody_escapeChar, ih]
    rfl

theorem dropJsonWs_colon (r : List Char) : dropJsonWs (':' :: r) = ':' :: r := by
  simp [dropJsonWs, isJsonWs]

theorem dropJsonWs_space (r : List Char) : dropJsonWs (' ' :: r) = dropJsonWs r := by
  simp [dropJsonWs, isJsonWs]

theorem dropJsonWs_quote (r : List Char) : dropJsonWs ('"' :: r) = '"' :: r := by
  simp [dropJsonWs, isJsonWs]

theorem dropJsonWs_rbrace (r : List Char) : dropJsonWs ('}' :: r) = '}' :: r := by
  simp [dropJsonWs, isJsonWs]

theorem dropJsonWs_comma (r : List Char) : dropJsonWs (',' :: r) = ',' :: r := by
  simp [dropJsonWs, isJsonWs]

theorem dropJsonWs_lbrace (r : List Char) : dropJsonWs ('\x7b' :: r) = '\x7b' :: r := by
  simp [dropJsonWs, isJsonWs]

/-- One-step unfolding of `parseJsonVal` on a string literal (definitional:
the parser is structural on its fuel). -/
theorem parseJsonVal_quote (f : Nat) (r : List Char) :
    parseJsonVal (f + 1) ('"' :: r)
      = (parseStrBody r).map (fun p => (Json.str p.1, p.2)) := rfl

/-- One-step unfolding of `parseJsonMembers` on a member list starting with
a string key (definitional). -/
theorem parseJsonMembers_quote (f : Nat) (r : List Char) :
    parseJsonMembers (f + 1) ('"' :: r)
      = (match parseStrBody r with
         | none => none
         | some (k, r1) =>
           match dropJsonWs r1 with
           | [] => none
           | c2 :: r2 =>
             if c2 = ':' then
               (match parseJsonVal f (dropJsonWs r2) with
                | none => none
                | some (v, r3) =>
                  match dropJsonWs r3 with
                  | [] => none
                  | c4 :: r4 =>
                    if c4 = '\x7d' then some ([(k, v)], r4)
                    else if c4 = ',' then
                      (match parseJsonMembers f (dropJsonWs r4) with
                       | some (ms, r5) => some ((k, v) :: ms, r5)
                       | none => none)
                    else none)
             else none) := rfl

/-- Parsing a dumped string literal as a JSON value. -/
theorem parseJsonVal_str (f : Nat) (s : String) (rest : List Char) :
    parseJsonVal (f + 1) ('"' :: (pyEscape s.data ++ ('"' :: rest)))
      = some (Json.str s.data, rest) := by
  rw [parseJsonVal_quote, parseStrBody_escape]
  rfl

/-- Parsing the dumped members of a non-empty dict, given fuel at least the
number of entries, consumes them up to the closing brace and returns the
parsed member list verbatim. -/
theorem parseJsonMembers_dumps :
    ∀ (m : List (String × String)) (f : Nat) (rest : List Char),
      m ≠ [] → m.length ≤ f →
      parseJsonMembers (f + 1) (pyDumpsEntries m ++ '\x7d' :: rest)
        = some (m.map (fun p => (p.1.data, Json.str p.2.data)), rest) := by
  intro m
  induction m with
  | nil => intro f rest h _; exact absurd rfl h
  | cons p tl ih =>
    intro f rest _ hlen
    obtain ⟨k, v⟩ := p
    obtain ⟨f2, rfl⟩ : ∃ f2, f = f2 + 1 :=
      ⟨f - 1, by simp at hlen; omega⟩
    cases tl with
    | nil =>
      have hshape : pyDumpsEntries [(k, v)] ++ '\x7d' :: rest
          = '"' :: (pyEscape k.data ++ ('"' :: (':' :: (' ' :: ('"' ::
              (pyEscape v.data ++ ('"' :: ('\x7d' :: rest)))))))) := by
        simp [pyDumpsEntries, pyQuoteStr]
      rw [hshape, parseJsonMembers_quote, parseStrBody_escape]
      simp [dropJsonWs_colon, dropJsonWs_space, dropJsonWs_quote, dropJsonWs_rbrace,
        parseJsonVal_str]
    | cons q tl2 =>
      have hshape : pyDumpsEntries ((k, v) :: q :: tl2) ++ '\x7d' :: rest
          = '"' :: (pyEscape k.data ++ ('"' :: (':' :: (' ' :: ('"' ::
              (pyEscape v.data ++ ('"' :: (',' :: (' ' ::
                (pyDumpsEntries (q :: tl2) ++ '\x7d' :: rest)))))))))) := by
        simp [pyDumpsEntries, pyQuoteStr]
      have hws : dropJsonWs (pyDumpsEntries (q :: tl2) ++ '\x7d' :: rest)
          = pyDumpsEntries (q :: tl2) ++ '\x7d' :: rest := by
        obtain ⟨k2, v2⟩ := q
        cases tl2 with
        | nil => simp [pyDumpsEntries, pyQuoteStr, dropJsonWs_quote]
        | cons r tl3 => simp [pyDumpsEntries, pyQuoteStr, dropJsonWs_quote]
      have hih := ih f2 rest (by simp) (by simp at hlen ⊢; omega)
      rw [hshape, parseJsonMembers_quote, parseStrBody_escape]
      simp [dropJsonWs_colon, dropJsonWs_space, dropJsonWs_quote, dropJsonWs_comma,
        parseJsonVal_str, hws, hih]

/-- `dropJsonWs` is the identity on dumped member lists: they start with a
quote. -/
theorem dropJsonWs_dumpsEntries (m : List (String × String)) (hm : m ≠ [])
    (rest : List Char) :
    dropJsonWs (pyDumpsEntries m ++ rest) = pyDumpsEntries m ++ rest := by
  cases m with
  | nil => exact absurd rfl hm
  | cons p tl =>
    obtain ⟨k, v⟩ := p
    cases tl with
    | nil => simp [pyDumpsEntries, pyQuoteStr, dropJsonWs_quote]
    | cons q tl2 => simp [pyDumpsEntries, pyQuoteStr, dropJsonWs_quote]

/-- Each dict entry contributes at least one character to the dump, so the
dump is at least as long as the entry list. -/
theorem length_le_pyDumpsEntries (m : List (String × String)) :
    m.length ≤ (pyDumpsEntries m).length := by
  induction m with
  | nil => simp [pyDumpsEntries]
  | cons p tl ih =>
    obtain ⟨k, v⟩ := p
    cases tl with
    | nil => simp [pyDumpsEntries, pyQuoteStr]
    | cons q tl2 =>
      have h2 : tl2.length + 1 ≤ (pyDumpsEntries (q :: tl2)).length := by
        simpa using ih
      have h3 : pyDumpsEntries ((k, v) :: q :: tl2)
          = pyQuoteStr k ++ ':' :: ' ' :: pyQuoteStr v ++ ',' :: ' ' ::
              pyDumpsEntries (q :: tl2) := by
        simp [pyDumpsEntries]
      rw [List.length_cons, List.length_cons, h3]
      simp only [List.length_append, List.length_cons]
      omega

/-- One-step unfolding of `parseJsonVal` on an object opener (definitional). -/
theorem parseJsonVal_lbrace (f : Nat) (r : List Char) :
    parseJsonVal (f + 1) ('\x7b' :: r)
      = (match dropJsonWs r with
         | [] => none
         | c2 :: r2 =>
           if c2 = '\x7d' then some (Json.obj [], r2)
           else (parseJsonMembers f (c2 :: r2)).map
             (fun p => (Json.obj p.1, p.2))) := rfl

/-- A dumped non-empty dict parses as a JSON object whose members are the
entries in order, with nothing left over. -/
theorem parseJsonVal_dumps (m : List (String × String)) (f : Nat) (hm : m ≠ [])
    (hf : m.length + 1 ≤ f) :
    parseJsonVal (f + 1) ('\x7b' :: (pyDumpsEntries m ++ '\x7d' :: []))
      = some (Json.obj (m.map (fun p => (p.1.data, Json.str p.2.data))), []) := by
  have hpos : 0 < m.length := List.length_pos.mpr hm
  obtain ⟨f2, rfl⟩ : ∃ f2, f = f2 + 1 := ⟨f - 1, by omega⟩
  have hmem := parseJsonMembers_dumps m f2 [] hm (by omega)
  obtain ⟨r, hE⟩ : ∃ r, pyDumpsEntries m = '"' :: r := by
    cases m with
    | nil => exact absurd rfl hm
    | cons p tl =>
      obtain ⟨k, v⟩ := p
      cases tl with
      | nil =>
        exact ⟨pyEscape k.data ++ '"' :: ':' :: ' ' :: '"' ::
          (pyEscape v.data ++ ['"']), by simp [pyDumpsEntries, pyQuoteStr]⟩
      | cons q tl2 =>
        exact ⟨pyEscape k.data ++ '"' :: ':' :: ' ' :: '"' ::
          (pyEscape v.data ++ '"' :: ',' :: ' ' :: pyDumpsEntries (q :: tl2)),
          by simp [pyDumpsEntries, pyQuoteStr]⟩
  rw [parseJsonVal_lbrace, dropJsonWs_dumpsEntries m hm]
  rw [hE] at hmem ⊢
  simp only [List.cons_append] at hmem ⊢
  simp [hmem]

/-- `json.loads(json.dumps(m))` recovers the object with the entries of `m`
in order (string keys, string values). -/
theorem pyJsonLoads_dumps (m : List (String × String)) :
    pyJsonLoads (pyJsonDumps m)
      = some (Json.obj (m.map (fun p => (p.1.data, Json.str p.2.data)))) := by
  cases m with
  | nil => rfl
  | cons p tl =>
    have hlen := length_le_pyDumpsEntries (p :: tl)
    simp only [pyJsonLoads, pyJsonDumps]
    rw [dropJsonWs_lbrace]
    have hfuel : 2 * ('\x7b' :: (pyDumpsEntries (p :: tl) ++ ['\x7d'])).length + 2
        = (2 * (pyDumpsEntries (p :: tl)).length + 5) + 1 := by
      simp [List.length_append]; omega
    rw [hfuel]
    rw [parseJsonVal_dumps (p :: tl) _ (by simp) (by simp at hlen ⊢; omega)]
    rfl

/-- Folding `pyDictSet` over entries whose keys are fresh and pairwise
distinct appends them in order. -/
theorem foldl_pyDictSet_append {α : Type} (l : List (String × α)) :
    ∀ acc : List (String × α),
      (l.map Prod.fst).Nodup →
      (∀ k, k ∈ l.map Prod.fst → ¬ k ∈ acc.map Prod.fst) →
      l.foldl (fun d p => pyDictSet d p.1 p.2) acc = acc ++ l := by
  induction l with
  | nil => intro acc _ _; simp
  | cons p tl ih =>
    intro acc hnd hdisj
    obtain ⟨k, v⟩ := p
    have hknotin : ¬ k ∈ acc.map Prod.fst := hdisj k (by simp)
    have hset : pyDictSet acc k v = acc ++ [(k, v)] := by
      have hnone : acc.any (fun q => q.1 = k) = false := by
        simp only [List.any_eq_false, decide_eq_false_iff_not]
        intro q hq hqk
        exact hknotin (List.mem_map.mpr ⟨q, hq, of_decide_eq_true hqk⟩)
      simp [pyDictSet, hnone]
    have htl := ih (acc ++ [(k, v)]) (by simp at hnd; exact hnd.2)
      (by
        intro k2 hk2 hk2in
        simp only [List.map_append, List.mem_append] at hk2in
        rcases hk2in with h1 | h1
        · exact hdisj k2 (by simp [hk2]) h1
        · have hk2k : k2 = k := by simpa using h1
          subst hk2k
          simp only [List.map_cons, List.nodup_cons] at hnd
          exact hnd.1 hk2)
    simp only [List.foldl_cons, hset, htl, List.append_assoc, List.singleton_append]

/-- On an entry list with pairwise-distinct keys (the shape a Python dict
always has), `pyDictOfPairs` is the identity. -/
theorem pyDictOfPairs_eq_self {α : Type} (l : List (String × α))
    (h : (l.map Prod.fst).Nodup) : pyDictOfPairs l = l := by
  have := foldl_pyDictSet_append l [] h (by simp)
  simpa [pyDictOfPairs] using this

/-- Round trip: `_parse_attributes(json.dumps(m, ensure_ascii=False))`
returns exactly the dict `m` (values as JSON strings) for any dict `m`. -/
theorem parseAttributes_dumps (m : List (String × String))
    (h : (m.map Prod.fst).Nodup) :
    parseAttributes (some (pyJsonDumps m))
      = m.map (fun p => (p.1, Json.str p.2.data)) := by
  have hne : ¬ pyJsonDumps m = "" := by
    intro hc
    have := congrArg String.data hc
    simp [pyJsonDumps] at this
  have hmm : ((m.map (fun p => (p.1.data, Json.str p.2.data))).map
      (fun p => (String.mk p.1, p.2))) = m.map (fun p => (p.1, Json.str p.2.data)) := by
    rw [List.map_map]; rfl
  have hkeys : ((m.map (fun p => ((p.1 : String), Json.str p.2.data))).map
      Prod.fst).Nodup := by
    rw [List.map_map]; exact h
  simp only [parseAttributes, if_neg hne]
  rw [pyJsonLoads_dumps]
  simp only []
  rw [hmm]
  exact pyDictOfPairs_eq_self _ hkeys

/-- C4: `_parse_attributes` is a total decoder inverse to
`json.dumps(·, ensure_ascii=False)` on attribute dicts: decoding a dumped
dict returns exactly its entries (values as JSON strings); decoding the
non-JSON string `"not json"`, `None`, or a blank string returns the empty
dict; any parse failure and any parsed non-object value also yield the
empty dict — the decoder never raises (it is a total function). -/
theorem attribute_codec_spec :
    (∀ m : List (String × String), (m.map Prod.fst).Nodup →
        parseAttributes (some (pyJsonDumps m))
          = m.map (fun p => (p.1, Json.str p.2.data)))
    ∧ parseAttributes (some "not json") = []
    ∧ parseAttributes none = []
    ∧ parseAttributes (some "") = []
    ∧ (∀ s : String, pyJsonLoads s = none → parseAttributes (some s) = [])
    ∧ (∀ (s : String) (v : Json), pyJsonLoads s = some v →
        (∀ ms, v ≠ Json.obj ms) → parseAttributes (some s) = []) := by
  refine ⟨fun m h => parseAttributes_dumps m h, ?_, rfl, ?_, ?_, ?_⟩
  · rfl
  · rfl
  · intro s hs
    by_cases hse : s = ""
    · simp [parseAttributes, hse]
    · simp [parseAttributes, hse, hs]
  · intro s v hv hobj
    by_cases hse : s = ""
    · simp [parseAttributes, hse]
    · simp only [parseAttributes, if_neg hse, hv]
      cases v <;> first | rfl | exact absurd rfl (hobj _)

/-- Concrete instance of the codec law: a two-field attribute dict round
trips through dump and parse, and the failure inputs decode to the empty
dict. -/
theorem attribute_codec_spec_witness :
    ((([("品牌", "华为"), ("尺寸", "15 寸")] : List (String × String)).map
        Prod.fst).Nodup
      ∧ parseAttributes (some (pyJsonDumps [("品牌", "华为"), ("尺寸", "15 寸")]))
          = ([("品牌", "华为"), ("尺寸", "15 寸")] : List (String × String)).map
              (fun p => (p.1, Json.str p.2.data)))
    ∧ parseAttributes (some "not json") = []
    ∧ parseAttributes none = [] :=
  ⟨⟨by decide,
    attribute_codec_spec.1 [("品牌", "华为"), ("尺寸", "15 寸")] (by decide)⟩,
    attribute_codec_spec.2.1, attribute_codec_spec.2.2.1⟩
